import Mathlib

/-!
# s3-basicauth-proxy: path grammar and request dispatch

A shallow embedding of `main.go`.

* The path patterns are the source's pattern strings, compiled by a model of the
  fragment of Go's `regexp/syntax` grammar that those strings use, and matched by a
  backtracking matcher with capture groups (Go's `regexp` returns the match a
  backtracking engine finds first).
* Go strings are modelled by Lean strings, i.e. by sequences of Unicode scalar
  values; paths that are not valid UTF-8 are outside the model.
* `http.ResponseWriter`, the AWS session constructor and the S3 client are modelled
  by explicit state passing; the S3 service is an arbitrary state machine.
-/

namespace S3Proxy

/-! ## Regular expressions -/

/-- Abstract form of the regular expressions the pattern strings use. -/
inductive Regex where
  /-- The empty expression. -/
  | empty : Regex
  /-- A literal character. -/
  | lit (c : Char) : Regex
  /-- A bracket expression: the list of its items, each a range `lo-hi`
      (a single character `c` is the range `c-c`). -/
  | cls (items : List (Char × Char)) : Regex
  /-- The dot: any character but line feed (flag `s` is off). -/
  | dot : Regex
  /-- The anchor `^`: beginning of text (flag `m` is off). -/
  | bol : Regex
  /-- The anchor `$`: end of text (flag `m` is off). -/
  | eol : Regex
  /-- Concatenation. -/
  | cat (a b : Regex) : Regex
  /-- Greedy `a?`. -/
  | quest (a : Regex) : Regex
  /-- Greedy `a+`. -/
  | plus (a : Regex) : Regex
  /-- Greedy `a{min,max}`. -/
  | rep (a : Regex) (min max : Nat) : Regex
  /-- Capture group number `idx`, named `name` (`""` when unnamed). -/
  | cap (idx : Nat) (name : String) (a : Regex) : Regex
  deriving DecidableEq, Repr

/-- Concatenation of a list of pieces. -/
def Regex.catAll : List Regex → Regex
  | [] => Regex.empty
  | [a] => a
  | a :: rest => Regex.cat a (Regex.catAll rest)

/-! ### Parsing a pattern string (after `regexp/syntax`, Perl flags) -/

/-- One character of a bracket expression (`parseClassChar`): a backslash followed by
    an ASCII punctuation character stands for that character; escapes that start with a
    letter or a digit (`\d`, `\pL`, `\x41`, ...) are not part of the fragment. -/
def classChar : List Char → Option (Char × List Char)
  | [] => none
  | '\\' :: c :: t => if c.toNat < 128 ∧ ¬ c.isAlphanum then some (c, t) else none
  | ['\\'] => none
  | c :: t => some (c, t)

/-- The items of a bracket expression up to its closing `]` (`parseClass`, after the
    opening `[`). `first` is true before the first item, where `]` is taken literally.
    A `-` that is followed by `]` is a literal; negation and the named classes
    `[:alpha:]` are not part of the fragment. -/
def parseClass : Nat → Bool → List Char → Option (List (Char × Char) × List Char)
  | 0, _, _ => none
  | n + 1, first, t =>
    match first, t with
    | _, [] => none
    | false, ']' :: rest => some ([], rest)
    | true, '^' :: _ => none
    | _, '[' :: ':' :: _ => none
    | _, _ =>
      match classChar t with
      | none => none
      | some (lo, t1) =>
        match t1 with
        | '-' :: c :: t2 =>
          if c = ']' then
            (parseClass n false t1).map (fun r => ((lo, lo) :: r.1, r.2))
          else
            match classChar (c :: t2) with
            | none => none
            | some (hi, t3) =>
              if hi < lo then none
              else (parseClass n false t3).map (fun r => ((lo, hi) :: r.1, r.2))
        | _ => (parseClass n false t1).map (fun r => ((lo, lo) :: r.1, r.2))

/-- A decimal number at the head of the input. -/
def parseNat : List Char → Option Nat → Option Nat × List Char
  | c :: t, acc =>
    if c.isDigit then parseNat t (some (acc.getD 0 * 10 + (c.toNat - '0'.toNat)))
    else (acc, c :: t)
  | [], acc => (acc, [])

/-- The bounds of a counted repetition, after its opening brace: `min,max}` or `n}`. -/
def parseRepeat (t : List Char) : Option (Nat × Nat × List Char) :=
  match parseNat t none with
  | (some lo, ',' :: t1) =>
    match parseNat t1 none with
    | (some hi, '}' :: t2) => if hi < lo then none else some (lo, hi, t2)
    | _ => none
  | (some lo, '}' :: t1) => some (lo, lo, t1)
  | _ => none

/-- The name of a named group, after `(?P<`, up to `>`. -/
def parseName : List Char → List Char → Option (String × List Char)
  | [], _ => none
  | '>' :: t, acc => if acc = [] then none else some (String.mk acc.reverse, t)
  | c :: t, acc => if c.isAlphanum ∨ c = '_' then parseName t (c :: acc) else none

/-- True when a repetition operator is followed by `?`, which would make it
    non-greedy (not part of the fragment), or by another repetition operator. -/
def lazyNext : List Char → Bool
  | '?' :: _ => true
  | '+' :: _ => true
  | '*' :: _ => true
  | _ => false

/-- The pieces of a concatenation, up to the end of the input or to a closing
    parenthesis. `k` is the number of capture groups opened so far, `acc` the pieces
    read so far, last first. Alternation, `*`, escapes outside brackets, non-greedy
    operators, flags and a brace that does not open a counted repetition are not part of
    the fragment. -/
def parsePieces : Nat → List Char → Nat → List Regex → Option (List Regex × List Char × Nat)
  | 0, _, _, _ => none
  | n + 1, t, k, acc =>
    match t with
    | [] => some (acc.reverse, [], k)
    | ')' :: _ => some (acc.reverse, t, k)
    | '(' :: '?' :: 'P' :: '<' :: t1 =>
      match parseName t1 [] with
      | none => none
      | some (name, t2) =>
        match parsePieces n t2 (k + 1) [] with
        | some (body, ')' :: t3, k1) =>
          parsePieces n t3 k1 (Regex.cap (k + 1) name (Regex.catAll body) :: acc)
        | _ => none
    | '(' :: '?' :: _ => none
    | '(' :: t1 =>
      match parsePieces n t1 (k + 1) [] with
      | some (body, ')' :: t3, k1) =>
        parsePieces n t3 k1 (Regex.cap (k + 1) "" (Regex.catAll body) :: acc)
      | _ => none
    | '[' :: t1 =>
      match parseClass (n + 1) true t1 with
      | none => none
      | some (items, t2) => parsePieces n t2 k (Regex.cls items :: acc)
    | '+' :: t1 =>
      match acc with
      | a :: acc1 => if lazyNext t1 then none else parsePieces n t1 k (Regex.plus a :: acc1)
      | [] => none
    | '?' :: t1 =>
      match acc with
      | a :: acc1 => if lazyNext t1 then none else parsePieces n t1 k (Regex.quest a :: acc1)
      | [] => none
    | '{' :: t1 =>
      match acc, parseRepeat t1 with
      | a :: acc1, some (lo, hi, t2) =>
        if lazyNext t2 then none else parsePieces n t2 k (Regex.rep a lo hi :: acc1)
      | _, _ => none
    | '^' :: t1 => parsePieces n t1 k (Regex.bol :: acc)
    | '$' :: t1 => parsePieces n t1 k (Regex.eol :: acc)
    | '.' :: t1 => parsePieces n t1 k (Regex.dot :: acc)
    | '|' :: _ => none
    | '*' :: _ => none
    | '\\' :: _ => none
    | c :: t1 => parsePieces n t1 k (Regex.lit c :: acc)

/-- Compile a pattern string: `none` when the pattern is malformed or outside the
    fragment. -/
def Compile (pattern : String) : Option Regex :=
  match parsePieces (pattern.length + 1) pattern.data 0 [] with
  | some (pieces, [], _) => some (Regex.catAll pieces)
  | _ => none

/-- Model of `regexp.MustCompile`, which panics on a malformed pattern; a pattern that
    does not compile is modelled by an expression that matches nothing. -/
def MustCompile (pattern : String) : Regex :=
  (Compile pattern).getD (Regex.cls [])

/-! ## The path patterns (`main.go`, lines 19-59) -/

def dnsNameCharPatternStr : String := "[a-z0-9.-]"
def endpointPatternStr : String := "[https?:\\\\" ++ dnsNameCharPatternStr ++ "+(:[0-9]+)?"
def bucketNamePatternStr : String := dnsNameCharPatternStr ++ "{3,63}"
def endpointGroupLabel : String := "endpoint"
def regionGroupLabel : String := "region"
def bucketGroupLabel : String := "bucket"
def objectGroupLabel : String := "object"
def servicePathPatternStr : String :=
  "/(?P<" ++ endpointGroupLabel ++ ">" ++ endpointPatternStr ++ ")/(?P<" ++ regionGroupLabel
    ++ ">" ++ dnsNameCharPatternStr ++ "+)"
def bucketPathPatternStr : String :=
  servicePathPatternStr ++ "/(?P<" ++ bucketGroupLabel ++ ">" ++ bucketNamePatternStr ++ ")"
def objectPathPatternStr : String :=
  bucketPathPatternStr ++ "/(?P<" ++ objectGroupLabel ++ ">.+)"
def objectDirPathPatternStr : String :=
  bucketPathPatternStr ++ "/(?P<" ++ objectGroupLabel ++ ">.+/)"
def optionalTrailingSlashPatternStr : String := "/?"

def ExactRegexp (pattern : String) : String :=
  "^" ++ pattern ++ "$"

def servicePathPattern : Regex :=
  MustCompile (ExactRegexp (servicePathPatternStr ++ optionalTrailingSlashPatternStr))
def bucketPathPattern : Regex :=
  MustCompile (ExactRegexp (bucketPathPatternStr ++ optionalTrailingSlashPatternStr))
def objectPathPattern : Regex := MustCompile (ExactRegexp objectPathPatternStr)
def objectDirPathPattern : Regex := MustCompile (ExactRegexp objectDirPathPatternStr)

/-! ## Matching -/

/-- State of a match in progress: the number of characters consumed since the start
    of the text, the text that remains, and the groups captured so far, latest first. -/
structure MState where
  pos : Nat
  rest : List Char
  caps : List (Nat × List Char)
  deriving DecidableEq, Repr

/-- Membership of a character in a bracket expression. -/
def inClass (items : List (Char × Char)) (c : Char) : Bool :=
  items.any (fun r => decide (r.1 ≤ c) && decide (c ≤ r.2))

/-- Consume one character that satisfies `p`. -/
def stepChar (p : Char → Bool) (st : MState) : List MState :=
  match st.rest with
  | [] => []
  | x :: xs => if p x then [{ st with pos := st.pos + 1, rest := xs }] else []

/-- Greedy `+` over the matcher `f` of the repeated expression: one more iteration is
    preferred to stopping. An iteration that consumes nothing is not repeated; `fuel`
    bounds the number of iterations. -/
def runPlus (f : MState → List MState) : Nat → MState → List MState
  | 0, _ => []
  | fuel + 1, st =>
    (f st).flatMap (fun st1 =>
      (if st1.rest.length < st.rest.length then runPlus f fuel st1 else []) ++ [st1])

/-- Greedy counted repetition over the matcher `f`: `min` mandatory iterations, then
    up to `extra` optional ones, one more being preferred to stopping. -/
def runRep (f : MState → List MState) : Nat → Nat → MState → List MState
  | 0, 0, st => [st]
  | 0, extra + 1, st => (f st).flatMap (runRep f 0 extra) ++ [st]
  | min + 1, extra, st => (f st).flatMap (runRep f min extra)

/-- All the ways the expression matches at the state, in the order a backtracking
    matcher tries them; the head of the list is the match that is reported. -/
def run : Regex → MState → List MState
  | Regex.empty => fun st => [st]
  | Regex.lit c => stepChar (fun x => x == c)
  | Regex.cls items => stepChar (inClass items)
  | Regex.dot => stepChar (fun x => x != '\n')
  | Regex.bol => fun st => if st.pos = 0 then [st] else []
  | Regex.eol => fun st => if st.rest = [] then [st] else []
  | Regex.cat a b => fun st => (run a st).flatMap (run b)
  | Regex.quest a => fun st => run a st ++ [st]
  | Regex.plus a => fun st => runPlus (run a) (st.rest.length + 1) st
  | Regex.rep a min max => fun st => runRep (run a) min (max - min) st
  | Regex.cap idx _ a => fun st =>
    (run a st).map (fun st1 =>
      { st1 with caps := (idx, st.rest.take (st1.pos - st.pos)) :: st1.caps })

/-- The names of the capture groups in order of their opening parenthesis. -/
def groupNames : Regex → List String
  | Regex.cat a b => groupNames a ++ groupNames b
  | Regex.quest a => groupNames a
  | Regex.plus a => groupNames a
  | Regex.rep a _ _ => groupNames a
  | Regex.cap _ name a => name :: groupNames a
  | _ => []

/-- Model of `Regexp.SubexpNames`: the group names, with `""` for the whole match. -/
def SubexpNames (re : Regex) : List String :=
  "" :: groupNames re

/-- Position of the first non-empty occurrence of `name` in `names`, counted from `i`. -/
def indexFrom (name : String) : List String → Nat → Int
  | [], _ => -1
  | n :: ns, i => if n = name then (i : Int) else indexFrom name ns (i + 1)

/-- Model of `Regexp.SubexpIndex`: the index of the first group with the given name, or
    `-1` when there is none or the name is empty. -/
def SubexpIndex (re : Regex) (name : String) : Int :=
  if name = "" then -1 else indexFrom name (SubexpNames re) 0

/-- The first match of `re` that starts at or after the head of `rest`, `pos` characters
    into the text: the suffix the match starts at, and the final state. -/
def findFrom (re : Regex) : Nat → List Char → Option (List Char × MState)
  | pos, [] => ((run re { pos := pos, rest := [], caps := [] }).head?).map (fun st => ([], st))
  | pos, x :: xs =>
    match (run re { pos := pos, rest := x :: xs, caps := [] }).head? with
    | some st => some (x :: xs, st)
    | none => findFrom re (pos + 1) xs

/-- Model of `Regexp.FindStringSubmatch`: `none` for Go's `nil`; otherwise the text of
    the leftmost match followed by the text of each group, `""` for a group that did not
    take part in the match. -/
def FindStringSubmatch (re : Regex) (s : String) : Option (List String) :=
  match findFrom re 0 s.data with
  | none => none
  | some (start, st) =>
    some (String.mk (start.take (start.length - st.rest.length)) ::
      (List.range (groupNames re).length).map (fun i =>
        String.mk ((st.caps.lookup (i + 1)).getD [])))

/-- Indexing of a match by a group index: `match[i]` (Go panics when the index is out
    of range; this does not happen for the indices below). -/
def sub (m : List String) (i : Int) : String :=
  if i < 0 then "" else m.getD i.toNat ""

def servicePathEndpointGroupIndex : Int := SubexpIndex servicePathPattern endpointGroupLabel
def servicePathRegionGroupIndex : Int := SubexpIndex servicePathPattern regionGroupLabel

def bucketPathEndpointGroupIndex : Int := SubexpIndex bucketPathPattern endpointGroupLabel
def bucketPathRegionGroupIndex : Int := SubexpIndex bucketPathPattern regionGroupLabel
def bucketPathBucketGroupIndex : Int := SubexpIndex bucketPathPattern bucketGroupLabel

def objectDirPathEndpointGroupIndex : Int := SubexpIndex objectDirPathPattern endpointGroupLabel
def objectDirPathRegionGroupIndex : Int := SubexpIndex objectDirPathPattern regionGroupLabel
def objectDirPathBucketGroupIndex : Int := SubexpIndex objectDirPathPattern bucketGroupLabel
def objectDirPathObjectGroupIndex : Int := SubexpIndex objectDirPathPattern objectGroupLabel

def objectPathEndpointGroupIndex : Int := SubexpIndex objectPathPattern endpointGroupLabel
def objectPathRegionGroupIndex : Int := SubexpIndex objectPathPattern regionGroupLabel
def objectPathBucketGroupIndex : Int := SubexpIndex objectPathPattern bucketGroupLabel
def objectPathObjectGroupIndex : Int := SubexpIndex objectPathPattern objectGroupLabel

/-! ## Path parsers (`main.go`, lines 61-104) -/

def ParseServicePath (path : String) : String × String × Bool :=
  match FindStringSubmatch servicePathPattern path with
  | none => ("", "", false)
  | some m => (sub m servicePathEndpointGroupIndex, sub m servicePathRegionGroupIndex, true)

def ParseBucketPath (path : String) : String × String × String × Bool :=
  match FindStringSubmatch bucketPathPattern path with
  | none => ("", "", "", false)
  | some m =>
    (sub m bucketPathEndpointGroupIndex, sub m bucketPathRegionGroupIndex,
      sub m bucketPathBucketGroupIndex, true)

def ParseObjectPath (path : String) : String × String × String × String × Bool :=
  match FindStringSubmatch objectPathPattern path with
  | none => ("", "", "", "", false)
  | some m =>
    (sub m objectPathEndpointGroupIndex, sub m objectPathRegionGroupIndex,
      sub m objectPathBucketGroupIndex, sub m objectPathObjectGroupIndex, true)

def ParseObjectDirPath (path : String) : String × String × String × String × Bool :=
  match FindStringSubmatch objectDirPathPattern path with
  | none => ("", "", "", "", false)
  | some m =>
    (sub m objectDirPathEndpointGroupIndex, sub m objectDirPathRegionGroupIndex,
      sub m objectDirPathBucketGroupIndex, sub m objectDirPathObjectGroupIndex, true)

/-! ## HTTP response writer (`net/http`) -/

def StatusOK : Nat := 200
def StatusNotFound : Nat := 404
def StatusMethodNotAllowed : Nat := 405
def StatusInternalServerError : Nat := 500

def MethodGet : String := "GET"
def MethodHead : String := "HEAD"
def MethodPost : String := "POST"
def MethodPut : String := "PUT"
def MethodDelete : String := "DELETE"

/-- What an `http.ResponseWriter` has received: the status code of the response header
    once it is written, the header fields, and the body. -/
structure ResponseWriter where
  status : Option Nat
  header : List (String × String)
  body : String
  deriving DecidableEq, Repr

/-- Model of `ResponseWriter.WriteHeader`: only the first status code counts. -/
def ResponseWriter.WriteHeader (resp : ResponseWriter) (code : Nat) : ResponseWriter :=
  match resp.status with
  | none => { resp with status := some code }
  | some _ => resp

/-- Model of `ResponseWriter.Write`: writes the header with status 200 when no header
    is written yet, then appends to the body. -/
def ResponseWriter.Write (resp : ResponseWriter) (data : String) : ResponseWriter :=
  let resp := resp.WriteHeader StatusOK
  { resp with body := resp.body ++ data }

/-- Model of `resp.Header().Set(key, value)`. -/
def ResponseWriter.HeaderSet (resp : ResponseWriter) (key value : String) : ResponseWriter :=
  { resp with header := (key, value) :: resp.header.filter (fun kv => kv.1 != key) }

/-- Model of `resp.Header().Del(key)`. -/
def ResponseWriter.HeaderDel (resp : ResponseWriter) (key : String) : ResponseWriter :=
  { resp with header := resp.header.filter (fun kv => kv.1 != key) }

/-- Model of `http.Error`: deletes the header field `Content-Length`, sets the
    plain-text headers, writes the header with the status code, then prints the message
    and a line feed. -/
def Error (resp : ResponseWriter) (error : String) (code : Nat) : ResponseWriter :=
  let resp := resp.HeaderDel "Content-Length"
  let resp := resp.HeaderSet "Content-Type" "text/plain; charset=utf-8"
  let resp := resp.HeaderSet "X-Content-Type-Options" "nosniff"
  let resp := resp.WriteHeader code
  resp.Write (error ++ "\n")

/-- Model of `io.Copy(resp, body)`: nothing is written for an empty body. -/
def ioCopy (resp : ResponseWriter) (body : String) : ResponseWriter :=
  if body = "" then resp else resp.Write body

/-! ## The S3 client (`aws-sdk-go`) -/

structure credentials where
  accessKey : String
  secretKey : String
  deriving DecidableEq, Repr

/-- The value of `awscredentials.StaticProvider`. -/
structure Value where
  AccessKeyID : String
  SecretAccessKey : String
  deriving DecidableEq, Repr

/-- The fields of `aws.Config` that `makeServiceForward` sets; `Credentials` is `none`
    for the nil pointer. -/
structure Config where
  Endpoint : String
  Region : String
  Credentials : Option Value
  S3ForcePathStyle : Bool
  deriving DecidableEq, Repr

/-- An entry of `ListBucketsOutput.Buckets`; times are given by their rendering. -/
structure Bucket where
  Name : String
  CreationDate : String
  deriving DecidableEq, Repr

/-- An entry of `ListObjectsOutput.Contents`; `Size` is `none` for the nil pointer.
    `Key` and `LastModified` are taken to be set, as the service sets them. -/
structure Object where
  Key : String
  Size : Option Int
  LastModified : String
  deriving DecidableEq, Repr

/-- The fields of `GetObjectOutput` that are read; `Body` is the content of the stream. -/
structure GetObjectOutput where
  ContentLength : Int
  Body : String
  deriving DecidableEq, Repr

/-- The storage calls with their inputs. -/
inductive Call where
  | ListBuckets : Call
  | ListObjects (Bucket : String) (Prefix : Option String) : Call
  | CreateBucket (Bucket : String) : Call
  | DeleteBucket (Bucket : String) : Call
  | GetObject (Bucket Key : String) : Call
  | PutObject (Bucket Key Body : String) : Call
  | DeleteObject (Bucket Key : String) : Call
  | DeleteObjects (Bucket : String) (Objects : List String) : Call
  deriving DecidableEq, Repr

/-- The capability methods of the four forwards. -/
inductive Capability where
  | serviceHeadIndex : Capability
  | serviceIndex : Capability
  | bucketHeadIndex (bucket : String) : Capability
  | bucketIndex (bucket : String) : Capability
  | bucketCreate (bucket : String) : Capability
  | bucketDelete (bucket : String) : Capability
  | objectHeadDownload (bucket object : String) : Capability
  | objectDownload (bucket object : String) : Capability
  | objectUpload (bucket object contents : String) : Capability
  | objectDelete (bucket object : String) : Capability
  | objectPrefixHeadIndex (bucket prefix_ : String) : Capability
  | objectPrefixIndex (bucket prefix_ : String) : Capability
  | objectPrefixDelete (bucket prefix_ : String) : Capability
  deriving DecidableEq, Repr

/-- What a request does, in order: backend constructions with their arguments,
    capability methods entered, and storage calls issued through a client. -/
inductive Event where
  | makeServiceForward (endpoint region : String) (creds : Option credentials) : Event
  | invoke (c : Capability) : Event
  | call (client : Config) (c : Call) : Event
  deriving DecidableEq, Repr

/-- The storage service and the session constructor, as seen by the proxy: a state
    machine on `σ` whose transitions answer the calls of a client, with `Except.error msg`
    or `some msg` for a returned error whose `Error()` text is `msg`. -/
structure Backend (σ : Type) where
  NewSession : Config → Option String
  ListBuckets : Config → σ → Except String (List Bucket) × σ
  ListObjects : Config → String → Option String → σ → Except String (List Object) × σ
  CreateBucket : Config → String → σ → Option String × σ
  DeleteBucket : Config → String → σ → Option String × σ
  GetObject : Config → String → String → σ → Except String GetObjectOutput × σ
  PutObject : Config → String → String → String → σ → Option String × σ
  DeleteObject : Config → String → String → σ → Option String × σ
  DeleteObjects : Config → String → List String → σ → Option String × σ

/-- State threaded through the handling of a request: the state of the storage
    service, the response writer, and the events so far. -/
structure World (σ : Type) where
  s3 : σ
  resp : ResponseWriter
  trace : List Event

/-- Record an event. -/
def World.log {σ : Type} (w : World σ) (ev : Event) : World σ :=
  { w with trace := w.trace ++ [ev] }

/-- Record a storage call and move the service to the state of its answer `r`. -/
def World.issue {σ α : Type} (w : World σ) (client : Config) (c : Call) (r : α × σ) :
    α × World σ :=
  (r.1, { w with s3 := r.2, trace := w.trace ++ [Event.call client c] })

/-! The methods of the client `*s3.S3`: each sends its input to the backend in the
current state of the service, and records the call with that same input. -/

def Backend.callListBuckets {σ : Type} (api : Backend σ) (client : Config) (w : World σ) :
    Except String (List Bucket) × World σ :=
  w.issue client Call.ListBuckets (api.ListBuckets client w.s3)

def Backend.callListObjects {σ : Type} (api : Backend σ) (client : Config)
    (bucket : String) (Prefix : Option String) (w : World σ) :
    Except String (List Object) × World σ :=
  w.issue client (Call.ListObjects bucket Prefix) (api.ListObjects client bucket Prefix w.s3)

def Backend.callCreateBucket {σ : Type} (api : Backend σ) (client : Config)
    (bucket : String) (w : World σ) : Option String × World σ :=
  w.issue client (Call.CreateBucket bucket) (api.CreateBucket client bucket w.s3)

def Backend.callDeleteBucket {σ : Type} (api : Backend σ) (client : Config)
    (bucket : String) (w : World σ) : Option String × World σ :=
  w.issue client (Call.DeleteBucket bucket) (api.DeleteBucket client bucket w.s3)

def Backend.callGetObject {σ : Type} (api : Backend σ) (client : Config)
    (bucket key : String) (w : World σ) : Except String GetObjectOutput × World σ :=
  w.issue client (Call.GetObject bucket key) (api.GetObject client bucket key w.s3)

def Backend.callPutObject {σ : Type} (api : Backend σ) (client : Config)
    (bucket key body : String) (w : World σ) : Option String × World σ :=
  w.issue client (Call.PutObject bucket key body) (api.PutObject client bucket key body w.s3)

def Backend.callDeleteObject {σ : Type} (api : Backend σ) (client : Config)
    (bucket key : String) (w : World σ) : Option String × World σ :=
  w.issue client (Call.DeleteObject bucket key) (api.DeleteObject client bucket key w.s3)

def Backend.callDeleteObjects {σ : Type} (api : Backend σ) (client : Config)
    (bucket : String) (objects : List String) (w : World σ) : Option String × World σ :=
  w.issue client (Call.DeleteObjects bucket objects)
    (api.DeleteObjects client bucket objects w.s3)

/-! ## Forwards (`main.go`, lines 121-340) -/

structure serviceForward where
  s3 : Config
  deriving DecidableEq, Repr

def makeServiceForward {σ : Type} (api : Backend σ) (endpoint region : String)
    (creds : Option credentials) (w : World σ) : Except String serviceForward × World σ :=
  let w := w.log (Event.makeServiceForward endpoint region creds)
  let awscreds : Option Value :=
    match creds with
    | some c => some { AccessKeyID := c.accessKey, SecretAccessKey := c.secretKey }
    | none => none
  let config : Config :=
    { Endpoint := endpoint, Region := region, Credentials := awscreds,
      S3ForcePathStyle := true }
  match api.NewSession config with
  | some err => (Except.error err, w)
  | none => (Except.ok { s3 := config }, w)

def indexHeader : String := "Name\tSize\tDate\n"

def indexLine (name : String) (size : Option Int) (date : String) : String :=
  match size with
  | some n => name ++ "\t" ++ toString n ++ "\t" ++ date ++ "\n"
  | none => name ++ "\t---\t" ++ date ++ "\n"

def processError (resp : ResponseWriter) (err : String) : ResponseWriter :=
  Error resp err StatusInternalServerError

def serviceForward.HeadIndex {σ : Type} (_s : serviceForward) (w : World σ) : World σ :=
  w.log (Event.invoke Capability.serviceHeadIndex)

def serviceForward.Index {σ : Type} (api : Backend σ) (s : serviceForward) (w : World σ) :
    World σ :=
  let w := w.log (Event.invoke Capability.serviceIndex)
  match api.callListBuckets s.s3 w with
  | (Except.error err, w) => { w with resp := processError w.resp err }
  | (Except.ok out, w) =>
    let resp := w.resp.Write indexHeader
    { w with resp := out.foldl (fun resp bucket =>
        resp.Write (indexLine bucket.Name none bucket.CreationDate)) resp }

structure bucketForward extends serviceForward where
  bucket : String
  deriving DecidableEq, Repr

def bucketForward.HeadIndex {σ : Type} (b : bucketForward) (w : World σ) : World σ :=
  w.log (Event.invoke (Capability.bucketHeadIndex b.bucket))

def bucketForward.Index {σ : Type} (api : Backend σ) (b : bucketForward) (w : World σ) :
    World σ :=
  let w := w.log (Event.invoke (Capability.bucketIndex b.bucket))
  match api.callListObjects b.s3 b.bucket none w with
  | (Except.error err, w) => { w with resp := processError w.resp err }
  | (Except.ok out, w) =>
    let resp := w.resp.Write indexHeader
    { w with resp := out.foldl (fun resp object =>
        resp.Write (indexLine object.Key object.Size object.LastModified)) resp }

def bucketForward.Create {σ : Type} (api : Backend σ) (b : bucketForward) (w : World σ) :
    World σ :=
  let w := w.log (Event.invoke (Capability.bucketCreate b.bucket))
  match api.callCreateBucket b.s3 b.bucket w with
  | (some err, w) => { w with resp := processError w.resp err }
  | (none, w) => w

def bucketForward.Delete {σ : Type} (api : Backend σ) (b : bucketForward) (w : World σ) :
    World σ :=
  let w := w.log (Event.invoke (Capability.bucketDelete b.bucket))
  match api.callDeleteBucket b.s3 b.bucket w with
  | (some err, w) => { w with resp := processError w.resp err }
  | (none, w) => w

structure objectForward extends bucketForward where
  object : String
  deriving DecidableEq, Repr

def objectForward.HeadDownload {σ : Type} (api : Backend σ) (o : objectForward)
    (w : World σ) : World σ :=
  let w := w.log (Event.invoke (Capability.objectHeadDownload o.bucket o.object))
  match api.callGetObject o.s3 o.bucket o.object w with
  | (Except.error err, w) => { w with resp := processError w.resp err }
  | (Except.ok out, w) =>
    { w with resp := w.resp.HeaderSet "Content-Length" (toString out.ContentLength) }

def objectForward.Download {σ : Type} (api : Backend σ) (o : objectForward) (w : World σ) :
    World σ :=
  let w := w.log (Event.invoke (Capability.objectDownload o.bucket o.object))
  match api.callGetObject o.s3 o.bucket o.object w with
  | (Except.error err, w) => { w with resp := processError w.resp err }
  | (Except.ok out, w) => { w with resp := ioCopy w.resp out.Body }

def objectForward.Upload {σ : Type} (api : Backend σ) (o : objectForward) (w : World σ)
    (contents : String) : World σ :=
  let w := w.log (Event.invoke (Capability.objectUpload o.bucket o.object contents))
  match api.callPutObject o.s3 o.bucket o.object contents w with
  | (some err, w) => { w with resp := processError w.resp err }
  | (none, w) => w

def objectForward.Delete {σ : Type} (api : Backend σ) (o : objectForward) (w : World σ) :
    World σ :=
  let w := w.log (Event.invoke (Capability.objectDelete o.bucket o.object))
  match api.callDeleteObject o.s3 o.bucket o.object w with
  | (some err, w) => { w with resp := processError w.resp err }
  | (none, w) => w

structure objectPrefixForward extends bucketForward where
  prefix_ : String
  deriving DecidableEq, Repr

def objectPrefixForward.HeadIndex {σ : Type} (o : objectPrefixForward) (w : World σ) :
    World σ :=
  w.log (Event.invoke (Capability.objectPrefixHeadIndex o.bucket o.prefix_))

def objectPrefixForward.Index {σ : Type} (api : Backend σ) (o : objectPrefixForward)
    (w : World σ) : World σ :=
  let w := w.log (Event.invoke (Capability.objectPrefixIndex o.bucket o.prefix_))
  match api.callListObjects o.s3 o.bucket (some o.prefix_) w with
  | (Except.error err, w) => { w with resp := processError w.resp err }
  | (Except.ok out, w) =>
    let resp := w.resp.Write indexHeader
    { w with resp := out.foldl (fun resp object =>
        resp.Write (indexLine object.Key object.Size object.LastModified)) resp }

def objectPrefixForward.Delete {σ : Type} (api : Backend σ) (o : objectPrefixForward)
    (w : World σ) : World σ :=
  let w := w.log (Event.invoke (Capability.objectPrefixDelete o.bucket o.prefix_))
  match api.callListObjects o.s3 o.bucket (some o.prefix_) w with
  | (Except.error err, w) => { w with resp := processError w.resp err }
  | (Except.ok objsOut, w) =>
    let objIds : List String := objsOut.map (fun obj => obj.Key)
    -- the error of `DeleteObjects` is assigned and not read
    (api.callDeleteObjects o.s3 o.bucket objIds w).2

/-! ## The handler (`main.go`, lines 342-435) -/

/-- How a block of the handler ends: with a `return`, or by running off its end, after
    which the statements that follow it run. -/
inductive Flow (α : Type) where
  | returned (w : α) : Flow α
  | next (w : α) : Flow α

/-- The fields of `http.Request` that the handler reads; `BasicAuth` is the result
    `(username, password, ok)` of `req.BasicAuth()`, `Path` is `req.URL.Path`. -/
structure Request where
  Method : String
  Path : String
  BasicAuth : String × String × Bool
  Body : String
  deriving DecidableEq, Repr

def ServeHTTP {σ : Type} (api : Backend σ) (req : Request) (w : World σ) : World σ :=
  let creds : Option credentials :=
    match req.BasicAuth with
    | (username, password, true) => some { accessKey := username, secretKey := password }
    | (_, _, false) => none
  if req.Path = "/" then
    { w with resp := w.resp.Write "Proxy is running" }
  else
  match ParseServicePath req.Path with
  | (endpoint, region, true) =>
    match makeServiceForward api endpoint region creds w with
    | (Except.error err, w) => { w with resp := Error w.resp err StatusInternalServerError }
    | (Except.ok svc, w) =>
      if req.Method = MethodHead then svc.HeadIndex w
      else if req.Method = MethodGet then svc.Index api w
      else { w with resp := Error w.resp "Method not allowed" StatusMethodNotAllowed }
  | (_, _, false) =>
  match ParseBucketPath req.Path with
  | (endpoint, region, bucket, true) =>
    match makeServiceForward api endpoint region creds w with
    | (Except.error err, w) => { w with resp := Error w.resp err StatusInternalServerError }
    | (Except.ok svc, w) =>
      let bkt : bucketForward := { toserviceForward := svc, bucket := bucket }
      if req.Method = MethodHead then bkt.HeadIndex w
      else if req.Method = MethodGet then bkt.Index api w
      else if req.Method = MethodPut then w
      else if req.Method = MethodPost then bkt.Create api w
      else if req.Method = MethodDelete then bkt.Delete api w
      else { w with resp := Error w.resp "Method not allowed" StatusMethodNotAllowed }
  | (_, _, _, false) =>
  -- the object block returns only when the backend cannot be built: after its switch
  -- there is no return, and control goes on to the object-prefix test
  let objectBlock : Flow (World σ) :=
    match ParseObjectPath req.Path with
    | (endpoint, region, bucket, object, true) =>
      match makeServiceForward api endpoint region creds w with
      | (Except.error err, w) =>
        Flow.returned { w with resp := Error w.resp err StatusInternalServerError }
      | (Except.ok svc, w) =>
        let obj : objectForward :=
          { toserviceForward := svc, bucket := bucket, object := object }
        if req.Method = MethodHead then Flow.next (obj.HeadDownload api w)
        else if req.Method = MethodGet then Flow.next (obj.Download api w)
        else if req.Method = MethodPut then Flow.next w
        else if req.Method = MethodPost then Flow.next (obj.Upload api w req.Body)
        else if req.Method = MethodDelete then Flow.next (obj.Delete api w)
        else
          Flow.next
            { w with resp := Error w.resp "Method not allowed" StatusMethodNotAllowed }
    | (_, _, _, _, false) => Flow.next w
  match objectBlock with
  | Flow.returned w => w
  | Flow.next w =>
  match ParseObjectDirPath req.Path with
  | (endpoint, region, bucket, prefix_, true) =>
    match makeServiceForward api endpoint region creds w with
    | (Except.error err, w) => { w with resp := Error w.resp err StatusInternalServerError }
    | (Except.ok svc, w) =>
      let obj : objectPrefixForward :=
        { toserviceForward := svc, bucket := bucket, prefix_ := prefix_ }
      if req.Method = MethodHead then obj.HeadIndex w
      else if req.Method = MethodGet then obj.Index api w
      else if req.Method = MethodDelete then obj.Delete api w
      else { w with resp := Error w.resp "Method not allowed" StatusMethodNotAllowed }
  | (_, _, _, _, false) =>
    { w with resp := Error w.resp "Not Found" StatusNotFound }

/-! ## Definitions used in the statements -/

/-- The characters `[a-z0-9.-]`. -/
def isDnsNameChar (c : Char) : Bool :=
  (decide ('a' ≤ c) && decide (c ≤ 'z')) || (decide ('0' ≤ c) && decide (c ≤ '9'))
    || c == '.' || c == '-'

/-- The items of the bracket expression of `dnsNameCharPatternStr`. -/
def dnsItems : List (Char × Char) :=
  [('a', 'z'), ('0', '9'), ('.', '.'), ('-', '-')]

/-- The items of the bracket expression that `endpointPatternStr` opens: its text runs
    from the `[` before `https` to the `]` of `dnsNameCharPatternStr`. -/
def endpointItems : List (Char × Char) :=
  [('h', 'h'), ('t', 't'), ('t', 't'), ('p', 'p'), ('s', 's'), ('?', '?'), (':', ':'),
    ('\\', '\\'), ('[', '[')] ++ dnsItems

/-- The expression of `endpointPatternStr`. -/
def endpointRe : Regex :=
  Regex.cat (Regex.plus (Regex.cls endpointItems))
    (Regex.quest (Regex.cap 2 ""
      (Regex.cat (Regex.lit ':') (Regex.plus (Regex.cls [('0', '9')])))))

/-- The expression of `^` and `servicePathPatternStr`, followed by `tail`. -/
def headRe (tail : Regex) : Regex :=
  Regex.cat Regex.bol (Regex.cat (Regex.lit '/')
    (Regex.cat (Regex.cap 1 "endpoint" endpointRe) (Regex.cat (Regex.lit '/')
      (Regex.cat (Regex.cap 3 "region" (Regex.plus (Regex.cls dnsItems))) tail))))

/-- The expression of the bucket segment of `bucketPathPatternStr`, followed by `tail`. -/
def bucketRe (tail : Regex) : Regex :=
  Regex.cat (Regex.lit '/')
    (Regex.cat (Regex.cap 4 "bucket" (Regex.rep (Regex.cls dnsItems) 3 63)) tail)

/-- The expression of `optionalTrailingSlashPatternStr` and `$`. -/
def slashEndRe : Regex :=
  Regex.cat (Regex.quest (Regex.lit '/')) Regex.eol

/-- The expression of the object segment of `objectPathPatternStr` and `$`. -/
def objectEndRe : Regex :=
  Regex.cat (Regex.lit '/')
    (Regex.cat (Regex.cap 5 "object" (Regex.plus Regex.dot)) Regex.eol)

/-- The expression of the object segment of `objectDirPathPatternStr` and `$`. -/
def objectDirEndRe : Regex :=
  Regex.cat (Regex.lit '/')
    (Regex.cat (Regex.cap 5 "object" (Regex.cat (Regex.plus Regex.dot) (Regex.lit '/')))
      Regex.eol)

/-- The state a search starts in at the beginning of the text `s`. -/
def start (s : List Char) : MState :=
  { pos := 0, rest := s, caps := [] }

/-- The text of group `i` in a final state, `""` when the group did not take part. -/
def group (st : MState) (i : Nat) : String :=
  String.mk ((st.caps.lookup i).getD [])

/-- A backend on which every call succeeds: no buckets, no objects, and every object
    read has the content `hello`. -/
def okBackend : Backend Unit where
  NewSession := fun _ => none
  ListBuckets := fun _ s => (Except.ok [], s)
  ListObjects := fun _ _ _ s => (Except.ok [], s)
  CreateBucket := fun _ _ s => (none, s)
  DeleteBucket := fun _ _ s => (none, s)
  GetObject := fun _ _ _ s => (Except.ok { ContentLength := 5, Body := "hello" }, s)
  PutObject := fun _ _ _ _ s => (none, s)
  DeleteObject := fun _ _ _ s => (none, s)
  DeleteObjects := fun _ _ _ s => (none, s)

/-- The world before a request is handled: nothing written, nothing done. -/
def World.init {σ : Type} (s : σ) : World σ :=
  { s3 := s, resp := { status := none, header := [], body := "" }, trace := [] }

/-- The expression `a` is described by `P`: its matches at a state are exactly the
    states reached by consuming a text `w` and adding the captures `cs`, where
    `P pos w cs r` holds for the position `pos` before `w` and the text `r` after it. -/
def Rec (a : Regex) (P : Nat → List Char → List (Nat × List Char) → List Char → Prop) :
    Prop :=
  ∀ st st1 : MState, st1 ∈ run a st ↔
    ∃ w cs, P st.pos w cs st1.rest ∧ st.rest = w ++ st1.rest ∧
      st1.pos = st.pos + w.length ∧ st1.caps = cs ++ st.caps

/-- The texts `e` the expression of `endpointPatternStr` matches, with the captures `k`
    of its unnamed group: a non-empty text over the bracket expression, then nothing, or
    a colon and digits in group 2. -/
def EndpointCaps (e : List Char) (k : List (Nat × List Char)) : Prop :=
  ∃ w1 w2, e = w1 ++ w2 ∧ (w1 ≠ [] ∧ ∀ c ∈ w1, inClass endpointItems c = true) ∧
    ((w2 = [] ∧ k = []) ∨
      (∃ d, w2 = ':' :: d ∧ (d ≠ [] ∧ ∀ c ∈ d, inClass [('0', '9')] c = true) ∧
        k = [(2, w2)]))

/-- The characters of the bracket expression of `endpointPatternStr`: those of
    `[a-z0-9.-]` and `?`, `:`, `\`, `[`. -/
def isEndpointChar (c : Char) : Bool :=
  isDnsNameChar c || c == '?' || c == ':' || c == '\\' || c == '['

/-- A non-empty string over `[a-z0-9.-]`. -/
def isDnsName (s : String) : Bool :=
  !s.data.isEmpty && s.data.all isDnsNameChar

/-- A string of 3 to 63 characters over `[a-z0-9.-]`. -/
def isBucketName (s : String) : Bool :=
  decide (3 ≤ s.length) && decide (s.length ≤ 63) && s.data.all isDnsNameChar

/-- A non-empty string over the bracket expression of `endpointPatternStr`. -/
def isEndpoint (s : String) : Bool :=
  !s.data.isEmpty && s.data.all isEndpointChar

/-- A string without line feed. -/
def noLineFeed (s : String) : Bool :=
  s.data.all (fun c => c != '\n')

/-- The string ends in a slash. -/
def endsInSlash (s : String) : Bool :=
  s.data.getLast? == some '/'

/-- The backend constructions among the events: the arguments of each call of
    `makeServiceForward`, in order. -/
def mkCalls : List Event → List (String × String × Option credentials)
  | [] => []
  | Event.makeServiceForward endpoint region creds :: evs =>
    (endpoint, region, creds) :: mkCalls evs
  | Event.invoke _ :: evs => mkCalls evs
  | Event.call _ _ :: evs => mkCalls evs

/-- The path starts with the segments `e` and `r`: it is `/e/r` followed by nothing or
    by a slash and more, and neither `e` nor `r` contains a slash. -/
def HeadSplit (path e r : String) : Prop :=
  ∃ w, path.data = '/' :: (e.data ++ '/' :: (r.data ++ w)) ∧ (w = [] ∨ ∃ x, w = '/' :: x) ∧
    '/' ∉ e.data ∧ '/' ∉ r.data

/-- The credentials the handler takes from the request. -/
def basicCreds (req : Request) : Option credentials :=
  match req.BasicAuth with
  | (username, password, true) => some { accessKey := username, secretKey := password }
  | (_, _, false) => none

/-- The block of the handler that serves a service path. -/
def serviceBranch {σ : Type} (api : Backend σ) (req : Request) (creds : Option credentials)
    (endpoint region : String) (w : World σ) : World σ :=
  match makeServiceForward api endpoint region creds w with
  | (Except.error err, w) => { w with resp := Error w.resp err StatusInternalServerError }
  | (Except.ok svc, w) =>
    if req.Method = MethodHead then svc.HeadIndex w
    else if req.Method = MethodGet then svc.Index api w
    else { w with resp := Error w.resp "Method not allowed" StatusMethodNotAllowed }

/-- The block of the handler that serves a bucket path. -/
def bucketBranch {σ : Type} (api : Backend σ) (req : Request) (creds : Option credentials)
    (endpoint region bucket : String) (w : World σ) : World σ :=
  match makeServiceForward api endpoint region creds w with
  | (Except.error err, w) => { w with resp := Error w.resp err StatusInternalServerError }
  | (Except.ok svc, w) =>
    let bkt : bucketForward := { toserviceForward := svc, bucket := bucket }
    if req.Method = MethodHead then bkt.HeadIndex w
    else if req.Method = MethodGet then bkt.Index api w
    else if req.Method = MethodPut then w
    else if req.Method = MethodPost then bkt.Create api w
    else if req.Method = MethodDelete then bkt.Delete api w
    else { w with resp := Error w.resp "Method not allowed" StatusMethodNotAllowed }

/-- The block of the handler that serves an object path. -/
def objectBranch {σ : Type} (api : Backend σ) (req : Request) (creds : Option credentials)
    (endpoint region bucket object : String) (w : World σ) : Flow (World σ) :=
  match makeServiceForward api endpoint region creds w with
  | (Except.error err, w) =>
    Flow.returned { w with resp := Error w.resp err StatusInternalServerError }
  | (Except.ok svc, w) =>
    let obj : objectForward :=
      { toserviceForward := svc, bucket := bucket, object := object }
    if req.Method = MethodHead then Flow.next (obj.HeadDownload api w)
    else if req.Method = MethodGet then Flow.next (obj.Download api w)
    else if req.Method = MethodPut then Flow.next w
    else if req.Method = MethodPost then Flow.next (obj.Upload api w req.Body)
    else if req.Method = MethodDelete then Flow.next (obj.Delete api w)
    else
      Flow.next
        { w with resp := Error w.resp "Method not allowed" StatusMethodNotAllowed }

/-- The block of the handler that serves an object-prefix path. -/
def objectPrefixBranch {σ : Type} (api : Backend σ) (req : Request)
    (creds : Option credentials) (endpoint region bucket prefix_ : String) (w : World σ) :
    World σ :=
  match makeServiceForward api endpoint region creds w with
  | (Except.error err, w) => { w with resp := Error w.resp err StatusInternalServerError }
  | (Except.ok svc, w) =>
    let obj : objectPrefixForward :=
      { toserviceForward := svc, bucket := bucket, prefix_ := prefix_ }
    if req.Method = MethodHead then obj.HeadIndex w
    else if req.Method = MethodGet then obj.Index api w
    else if req.Method = MethodDelete then obj.Delete api w
    else { w with resp := Error w.resp "Method not allowed" StatusMethodNotAllowed }

/-- The world of a block's outcome. -/
def Flow.world {α : Type} : Flow α → α
  | Flow.returned w => w
  | Flow.next w => w

/-- The client `makeServiceForward` builds for `s3.example.com`, `us-east-1` and no
    credentials. -/
def exampleClient : Config :=
  { Endpoint := "s3.example.com", Region := "us-east-1", Credentials := none,
    S3ForcePathStyle := true }

/-- An anonymous request without body. -/
def exampleRequest (method path : String) : Request :=
  { Method := method, Path := path, BasicAuth := ("", "", false), Body := "" }

/-- A backend that lists one object, `dir/a`, and on which `DeleteObjects` fails with
    the message `AccessDenied`. -/
def deleteFailsBackend : Backend Unit :=
  { okBackend with
    ListObjects := fun _ _ _ s =>
      (Except.ok [{ Key := "dir/a", Size := some 1, LastModified := "2021-01-01" }], s)
    DeleteObjects := fun _ _ _ s => (some "AccessDenied", s) }

/-- A backend that lists two objects under every prefix. -/
def twoObjectsBackend : Backend Unit :=
  { okBackend with
    ListObjects := fun _ _ _ s =>
      (Except.ok [{ Key := "dir/a", Size := some 1, LastModified := "2021-01-01" },
        { Key := "dir/b", Size := none, LastModified := "2021-01-02" }], s) }

/-- The forward of the prefix `dir/` of `my-bucket` on the example client. -/
def examplePrefixForward : objectPrefixForward :=
  { s3 := exampleClient, bucket := "my-bucket", prefix_ := "dir/" }

/-- A request that carries Basic-authentication credentials. -/
def authRequest : Request :=
  { Method := "GET", Path := "/s3.example.com/us-east-1/my-bucket/dir/file.txt",
    BasicAuth := ("AKIAEXAMPLE", "secret", true), Body := "" }

/-- The grammar of the endpoint token in the words of the specification: a non-empty
    string over `[a-z0-9.-]`, optionally prefixed with `http://` or `https://`. -/
def isSchemeDnsName (e : String) : Bool :=
  isDnsName e
    || ("http://".data.isPrefixOf e.data && isDnsName (String.mk (e.data.drop 7)))
    || ("https://".data.isPrefixOf e.data && isDnsName (String.mk (e.data.drop 8)))

/-- The digits `[0-9]`. -/
def isDigitChar (c : Char) : Bool :=
  decide ('0' ≤ c) && decide (c ≤ '9')

/-- A non-empty string over `[a-z0-9.-]`, optionally followed by a colon and one or more
    digits. -/
def isHostPort (e : String) : Bool :=
  let host := e.data.takeWhile (fun c => c != ':')
  let port := e.data.dropWhile (fun c => c != ':')
  (!host.isEmpty && host.all isDnsNameChar)
    && (port.isEmpty || (!port.tail.isEmpty && port.tail.all isDigitChar))

/-- A backend whose state is the list of the keys it stores: `ListObjects` lists them
    all, `DeleteObjects` removes the keys it is sent, and every other call succeeds and
    changes nothing. -/
def storeBackend : Backend (List String) where
  NewSession := fun _ => none
  ListBuckets := fun _ s => (Except.ok [], s)
  ListObjects := fun _ _ _ s =>
    (Except.ok (s.map (fun k => { Key := k, Size := none, LastModified := "" })), s)
  CreateBucket := fun _ _ s => (none, s)
  DeleteBucket := fun _ _ s => (none, s)
  GetObject := fun _ _ _ s => (Except.ok { ContentLength := 0, Body := "" }, s)
  PutObject := fun _ _ _ _ s => (none, s)
  DeleteObject := fun _ _ _ s => (none, s)
  DeleteObjects := fun _ _ keys s => (none, s.filter (fun k => !keys.contains k))

/-! # Theorems -/

/-! ## Lemmas on the matcher -/

theorem run_cat (a b : Regex) (st : MState) :
    run (Regex.cat a b) st = (run a st).flatMap (run b) := rfl

theorem run_quest (a : Regex) (st : MState) : run (Regex.quest a) st = run a st ++ [st] := rfl

theorem run_cap (idx : Nat) (name : String) (a : Regex) (st : MState) :
    run (Regex.cap idx name a) st =
      (run a st).map (fun st1 =>
        { st1 with caps := (idx, st.rest.take (st1.pos - st.pos)) :: st1.caps }) := rfl

theorem run_lit (c : Char) (st : MState) :
    run (Regex.lit c) st = stepChar (fun x => x == c) st := rfl

theorem run_cls (items : List (Char × Char)) (st : MState) :
    run (Regex.cls items) st = stepChar (inClass items) st := rfl

theorem run_plus_cls (items : List (Char × Char)) (st : MState) :
    run (Regex.plus (Regex.cls items)) st
      = runPlus (stepChar (inClass items)) (st.rest.length + 1) st := rfl

theorem run_plus_dot (st : MState) :
    run (Regex.plus Regex.dot) st
      = runPlus (stepChar (fun x => x != '\n')) (st.rest.length + 1) st := rfl

theorem run_rep_cls (items : List (Char × Char)) (lo hi : Nat) (st : MState) :
    run (Regex.rep (Regex.cls items) lo hi) st
      = runRep (stepChar (inClass items)) lo (hi - lo) st := rfl

theorem mem_stepChar {p : Char → Bool} {st st1 : MState} :
    st1 ∈ stepChar p st ↔
      ∃ x xs, st.rest = x :: xs ∧ p x = true ∧ st1 = ⟨st.pos + 1, xs, st.caps⟩ := by
  unfold stepChar
  cases h : st.rest with
  | nil => simp
  | cons x xs =>
    by_cases hp : p x = true
    · simp only [hp, if_true, List.mem_singleton, List.cons.injEq]
      constructor
      · rintro rfl
        exact ⟨x, xs, ⟨rfl, rfl⟩, hp, rfl⟩
      · rintro ⟨_, _, ⟨rfl, rfl⟩, -, h⟩
        exact h
    · simp only [hp, List.cons.injEq]
      constructor
      · intro h
        simp at h
      · rintro ⟨_, _, ⟨rfl, rfl⟩, h, -⟩
        exact absurd h hp

theorem mem_runPlus_stepChar (p : Char → Bool) :
    ∀ (fuel : Nat) (st st1 : MState),
      st1 ∈ runPlus (stepChar p) fuel st ↔
        ∃ w r, w ≠ [] ∧ w.length ≤ fuel ∧ (∀ c ∈ w, p c = true) ∧ st.rest = w ++ r ∧
          st1 = ⟨st.pos + w.length, r, st.caps⟩ := by
  intro fuel
  induction fuel with
  | zero =>
    intro st st1
    simp only [runPlus, List.not_mem_nil, false_iff]
    rintro ⟨w, r, hw, hlen, -⟩
    exact hw (List.length_eq_zero.mp (Nat.le_zero.mp hlen))
  | succ n ih =>
    intro st st1
    simp only [runPlus, List.mem_flatMap, List.mem_append, List.mem_singleton, mem_stepChar]
    constructor
    · rintro ⟨s1, ⟨x, xs, hrest, hpx, rfl⟩, h⟩
      rcases h with h | h
      · have hlt : xs.length < st.rest.length := by simp [hrest]
        simp only [hlt, if_true] at h
        obtain ⟨w, r, -, hlen, hall, hxs, rfl⟩ := (ih _ _).mp h
        refine ⟨x :: w, r, by simp, by simpa using hlen, ?_, ?_, ?_⟩
        · intro c hc
          rcases List.mem_cons.mp hc with rfl | hc
          · exact hpx
          · exact hall c hc
        · simp only at hxs
          simp [hrest, hxs]
        · simp [Nat.add_assoc, Nat.add_comm 1]
      · subst h
        exact ⟨[x], xs, by simp, by simp, by simpa using hpx, by simp [hrest], rfl⟩
    · rintro ⟨w, r, hw, hlen, hall, hrest, rfl⟩
      cases w with
      | nil => exact absurd rfl hw
      | cons x w =>
        refine ⟨⟨st.pos + 1, w ++ r, st.caps⟩, ⟨x, w ++ r, by simpa using hrest,
          hall x (List.mem_cons_self _ _), rfl⟩, ?_⟩
        by_cases hwn : w = []
        · subst hwn
          right
          simp
        · left
          have hlt : (w ++ r).length < st.rest.length := by simp [hrest]
          simp only [hlt, if_true]
          refine (ih _ _).mpr ⟨w, r, hwn, by simpa using hlen, ?_, rfl, ?_⟩
          · intro c hc
            exact hall c (List.mem_cons_of_mem _ hc)
          · simp [Nat.add_assoc, Nat.add_comm 1]

theorem mem_runRep_stepChar (p : Char → Bool) :
    ∀ (lo extra : Nat) (st st1 : MState),
      st1 ∈ runRep (stepChar p) lo extra st ↔
        ∃ w r, lo ≤ w.length ∧ w.length ≤ lo + extra ∧ (∀ c ∈ w, p c = true) ∧
          st.rest = w ++ r ∧ st1 = ⟨st.pos + w.length, r, st.caps⟩ := by
  intro lo
  induction lo with
  | zero =>
    intro extra
    induction extra with
    | zero =>
      intro st st1
      simp only [runRep, List.mem_singleton]
      constructor
      · rintro rfl
        exact ⟨[], st1.rest, by simp, by simp, by simp, by simp, by simp⟩
      · rintro ⟨w, r, -, hlen, -, hrest, rfl⟩
        have hw : w = [] := List.length_eq_zero.mp (by simpa using hlen)
        subst hw
        cases st
        simp_all
    | succ k ih =>
      intro st st1
      simp only [runRep, List.mem_append, List.mem_flatMap, List.mem_singleton, mem_stepChar]
      constructor
      · rintro (⟨s1, ⟨x, xs, hrest, hpx, rfl⟩, h⟩ | rfl)
        · obtain ⟨w, r, -, hlen, hall, hxs, rfl⟩ := (ih _ _).mp h
          refine ⟨x :: w, r, by simp, by simp at hlen ⊢; omega, ?_, ?_, ?_⟩
          · intro c hc
            rcases List.mem_cons.mp hc with rfl | hc
            · exact hpx
            · exact hall c hc
          · simp only at hxs
            simp [hrest, hxs]
          · simp [Nat.add_assoc, Nat.add_comm 1]
        · exact ⟨[], st1.rest, by simp, by simp, by simp, by simp, by simp⟩
      · rintro ⟨w, r, -, hlen, hall, hrest, rfl⟩
        cases w with
        | nil =>
          right
          cases st
          simp_all
        | cons x w =>
          left
          refine ⟨⟨st.pos + 1, w ++ r, st.caps⟩, ⟨x, w ++ r, by simpa using hrest,
            hall x (List.mem_cons_self _ _), rfl⟩, ?_⟩
          refine (ih _ _).mpr ⟨w, r, by simp, by simp at hlen ⊢; omega, ?_, rfl, ?_⟩
          · intro c hc
            exact hall c (List.mem_cons_of_mem _ hc)
          · simp [Nat.add_assoc, Nat.add_comm 1]
  | succ m ih =>
    intro extra st st1
    simp only [runRep, List.mem_flatMap, mem_stepChar]
    constructor
    · rintro ⟨s1, ⟨x, xs, hrest, hpx, rfl⟩, h⟩
      obtain ⟨w, r, hlo, hlen, hall, hxs, rfl⟩ := (ih _ _ _).mp h
      refine ⟨x :: w, r, by simp; omega, by simp; omega, ?_, ?_, ?_⟩
      · intro c hc
        rcases List.mem_cons.mp hc with rfl | hc
        · exact hpx
        · exact hall c hc
      · simp only at hxs
        simp [hrest, hxs]
      · simp [Nat.add_assoc, Nat.add_comm 1]
    · rintro ⟨w, r, hlo, hlen, hall, hrest, rfl⟩
      cases w with
      | nil => simp at hlo
      | cons x w =>
        refine ⟨⟨st.pos + 1, w ++ r, st.caps⟩, ⟨x, w ++ r, by simpa using hrest,
          hall x (List.mem_cons_self _ _), rfl⟩, ?_⟩
        refine (ih _ _ _).mpr ⟨w, r, by simp at hlo; omega, by simp at hlen ⊢; omega, ?_, rfl, ?_⟩
        · intro c hc
          exact hall c (List.mem_cons_of_mem _ hc)
        · simp [Nat.add_assoc, Nat.add_comm 1]

theorem servicePathPattern_eq : servicePathPattern = headRe slashEndRe := by decide!

theorem bucketPathPattern_eq : bucketPathPattern = headRe (bucketRe slashEndRe) := by decide!

theorem objectPathPattern_eq : objectPathPattern = headRe (bucketRe objectEndRe) := by decide!

theorem objectDirPathPattern_eq :
    objectDirPathPattern = headRe (bucketRe objectDirEndRe) := by decide!

theorem range_single (a c : Char) : (decide (a ≤ c) && decide (c ≤ a)) = (c == a) := by
  by_cases h : c = a
  · subst h
    simp
  · have h2 : ¬ (a ≤ c ∧ c ≤ a) := fun hh => h (le_antisymm hh.2 hh.1)
    have h3 : (c == a) = false := by simpa using h
    rw [h3]
    simpa using h2

theorem inClass_dnsItems (c : Char) : inClass dnsItems c = isDnsNameChar c := by
  simp [inClass, dnsItems, isDnsNameChar, Bool.or_assoc, range_single]

theorem inClass_endpointItems (c : Char) :
    inClass endpointItems c
      = (isDnsNameChar c || c == '?' || c == ':' || c == '\\' || c == '[') := by
  have h : inClass endpointItems c
      = (c == 'h' || c == 't' || c == 't' || c == 'p' || c == 's' || c == '?' || c == ':'
          || c == '\\' || c == '[' || inClass dnsItems c) := by
    simp [inClass, endpointItems, dnsItems, Bool.or_assoc, range_single]
  rw [h, inClass_dnsItems]
  have hh : (c == 'h') = true → isDnsNameChar c = true := by
    intro e; rw [beq_iff_eq] at e; subst e; decide
  have ht : (c == 't') = true → isDnsNameChar c = true := by
    intro e; rw [beq_iff_eq] at e; subst e; decide
  have hp : (c == 'p') = true → isDnsNameChar c = true := by
    intro e; rw [beq_iff_eq] at e; subst e; decide
  have hs : (c == 's') = true → isDnsNameChar c = true := by
    intro e; rw [beq_iff_eq] at e; subst e; decide
  revert hh ht hp hs
  cases (c == 'h') <;> cases (c == 't') <;> cases (c == 'p') <;> cases (c == 's') <;>
    cases isDnsNameChar c <;> cases (c == '?') <;> cases (c == ':') <;>
    cases (c == '\\') <;> cases (c == '[') <;> simp

theorem rec_stepChar (a : Regex) (p : Char → Bool) (h : ∀ st, run a st = stepChar p st) :
    Rec a (fun _ w cs _ => ∃ x, w = [x] ∧ p x = true ∧ cs = []) := by
  intro st st1
  rw [h, mem_stepChar]
  constructor
  · rintro ⟨x, xs, hrest, hpx, rfl⟩
    exact ⟨[x], [], ⟨x, rfl, hpx, rfl⟩, by simpa using hrest, rfl, rfl⟩
  · rintro ⟨w, cs, ⟨x, rfl, hpx, rfl⟩, hrest, hpos, hcaps⟩
    refine ⟨x, st1.rest, by simpa using hrest, hpx, ?_⟩
    cases st1
    simp_all

theorem rec_lit (c : Char) : Rec (Regex.lit c) (fun _ w cs _ => w = [c] ∧ cs = []) := by
  intro st st1
  rw [rec_stepChar (Regex.lit c) (fun x => x == c) (fun _ => rfl) st st1]
  constructor
  · rintro ⟨w, cs, ⟨x, rfl, hx, rfl⟩, h⟩
    have hxc : x = c := by simpa using hx
    subst hxc
    exact ⟨[x], [], ⟨rfl, rfl⟩, h⟩
  · rintro ⟨w, cs, ⟨rfl, rfl⟩, h⟩
    exact ⟨[c], [], ⟨c, rfl, by simp, rfl⟩, h⟩

theorem rec_plus_char (a : Regex) (p : Char → Bool)
    (h : ∀ st, run a st = runPlus (stepChar p) (st.rest.length + 1) st) :
    Rec a (fun _ w cs _ => (w ≠ [] ∧ ∀ c ∈ w, p c = true) ∧ cs = []) := by
  intro st st1
  rw [h, mem_runPlus_stepChar]
  constructor
  · rintro ⟨w, r, hw, -, hall, hrest, rfl⟩
    exact ⟨w, [], ⟨⟨hw, hall⟩, rfl⟩, hrest, rfl, rfl⟩
  · rintro ⟨w, cs, ⟨⟨hw, hall⟩, rfl⟩, hrest, hpos, hcaps⟩
    refine ⟨w, st1.rest, hw, ?_, hall, hrest, ?_⟩
    · rw [hrest]
      simp
      omega
    · cases st1
      simp_all

theorem rec_plus_cls (items : List (Char × Char)) :
    Rec (Regex.plus (Regex.cls items))
      (fun _ w cs _ => (w ≠ [] ∧ ∀ c ∈ w, inClass items c = true) ∧ cs = []) :=
  rec_plus_char _ _ (fun _ => rfl)

theorem rec_plus_dot :
    Rec (Regex.plus Regex.dot)
      (fun _ w cs _ => (w ≠ [] ∧ ∀ c ∈ w, (c != '\n') = true) ∧ cs = []) :=
  rec_plus_char _ _ (fun _ => rfl)

theorem rec_rep_cls (items : List (Char × Char)) (lo hi : Nat) :
    Rec (Regex.rep (Regex.cls items) lo hi)
      (fun _ w cs _ => (lo ≤ w.length ∧ w.length ≤ lo + (hi - lo) ∧
        ∀ c ∈ w, inClass items c = true) ∧ cs = []) := by
  intro st st1
  rw [run_rep_cls, mem_runRep_stepChar]
  constructor
  · rintro ⟨w, r, hlo, hhi, hall, hrest, rfl⟩
    exact ⟨w, [], ⟨⟨hlo, hhi, hall⟩, rfl⟩, hrest, rfl, rfl⟩
  · rintro ⟨w, cs, ⟨⟨hlo, hhi, hall⟩, rfl⟩, hrest, hpos, hcaps⟩
    refine ⟨w, st1.rest, hlo, hhi, hall, hrest, ?_⟩
    cases st1
    simp_all

theorem rec_bol : Rec Regex.bol (fun pos w cs _ => pos = 0 ∧ w = [] ∧ cs = []) := by
  intro st st1
  show st1 ∈ (if st.pos = 0 then [st] else []) ↔ _
  constructor
  · intro h
    by_cases hp : st.pos = 0
    · rw [if_pos hp, List.mem_singleton] at h
      subst h
      exact ⟨[], [], ⟨hp, rfl, rfl⟩, rfl, rfl, rfl⟩
    · rw [if_neg hp] at h
      exact absurd h (List.not_mem_nil _)
  · rintro ⟨w, cs, ⟨hp, rfl, rfl⟩, hrest, hpos, hcaps⟩
    rw [if_pos hp, List.mem_singleton]
    cases st1
    cases st
    simp_all

theorem rec_eol : Rec Regex.eol (fun _ w cs r => r = [] ∧ w = [] ∧ cs = []) := by
  intro st st1
  show st1 ∈ (if st.rest = [] then [st] else []) ↔ _
  constructor
  · intro h
    by_cases hp : st.rest = []
    · rw [if_pos hp, List.mem_singleton] at h
      subst h
      exact ⟨[], [], ⟨hp, rfl, rfl⟩, rfl, rfl, rfl⟩
    · rw [if_neg hp] at h
      exact absurd h (List.not_mem_nil _)
  · rintro ⟨w, cs, ⟨hr, rfl, rfl⟩, hrest, hpos, hcaps⟩
    have hp : st.rest = [] := by rw [hrest, hr]; rfl
    rw [if_pos hp, List.mem_singleton]
    cases st1
    cases st
    simp_all

theorem rec_cat {a b : Regex} {P Q : Nat → List Char → List (Nat × List Char) → List Char → Prop}
    (ha : Rec a P) (hb : Rec b Q) :
    Rec (Regex.cat a b) (fun pos w cs r => ∃ w1 w2 c1 c2, w = w1 ++ w2 ∧ cs = c2 ++ c1 ∧
      P pos w1 c1 (w2 ++ r) ∧ Q (pos + w1.length) w2 c2 r) := by
  intro st st1
  rw [run_cat, List.mem_flatMap]
  constructor
  · rintro ⟨s, hs, hs1⟩
    obtain ⟨w1, c1, hP, hrest1, hpos1, hcaps1⟩ := (ha st s).mp hs
    obtain ⟨w2, c2, hQ, hrest2, hpos2, hcaps2⟩ := (hb s st1).mp hs1
    refine ⟨w1 ++ w2, c2 ++ c1, ⟨w1, w2, c1, c2, rfl, rfl, ?_, ?_⟩, ?_, ?_, ?_⟩
    · rw [← hrest2]
      exact hP
    · rw [← hpos1]
      exact hQ
    · rw [hrest1, hrest2, List.append_assoc]
    · rw [hpos2, hpos1, List.length_append, Nat.add_assoc]
    · rw [hcaps2, hcaps1, List.append_assoc]
  · rintro ⟨w, cs, ⟨w1, w2, c1, c2, rfl, rfl, hP, hQ⟩, hrest, hpos, hcaps⟩
    refine ⟨⟨st.pos + w1.length, w2 ++ st1.rest, c1 ++ st.caps⟩, ?_, ?_⟩
    · exact (ha st _).mpr ⟨w1, c1, hP, by rw [hrest, List.append_assoc], rfl, rfl⟩
    · refine (hb _ st1).mpr ⟨w2, c2, hQ, rfl, ?_, ?_⟩
      · rw [hpos, List.length_append, Nat.add_assoc]
      · rw [hcaps, List.append_assoc]

theorem rec_quest {a : Regex} {P : Nat → List Char → List (Nat × List Char) → List Char → Prop}
    (ha : Rec a P) :
    Rec (Regex.quest a) (fun pos w cs r => P pos w cs r ∨ (w = [] ∧ cs = [])) := by
  intro st st1
  rw [run_quest, List.mem_append, List.mem_singleton]
  constructor
  · rintro (h | rfl)
    · obtain ⟨w, cs, hP, h⟩ := (ha st st1).mp h
      exact ⟨w, cs, Or.inl hP, h⟩
    · exact ⟨[], [], Or.inr ⟨rfl, rfl⟩, rfl, rfl, rfl⟩
  · rintro ⟨w, cs, hP | ⟨rfl, rfl⟩, hrest, hpos, hcaps⟩
    · exact Or.inl ((ha st st1).mpr ⟨w, cs, hP, hrest, hpos, hcaps⟩)
    · right
      cases st1
      cases st
      simp_all

theorem rec_cap {a : Regex} {P : Nat → List Char → List (Nat × List Char) → List Char → Prop}
    (ha : Rec a P) (idx : Nat) (name : String) :
    Rec (Regex.cap idx name a) (fun pos w cs r => ∃ c1, P pos w c1 r ∧ cs = (idx, w) :: c1) := by
  intro st st1
  rw [run_cap, List.mem_map]
  constructor
  · rintro ⟨s, hs, rfl⟩
    obtain ⟨w, c1, hP, hrest, hpos, hcaps⟩ := (ha st s).mp hs
    refine ⟨w, (idx, w) :: c1, ⟨c1, hP, rfl⟩, hrest, hpos, ?_⟩
    simp [hrest, hpos, hcaps]
  · rintro ⟨w, cs, ⟨c1, hP, rfl⟩, hrest, hpos, hcaps⟩
    refine ⟨⟨st1.pos, st1.rest, c1 ++ st.caps⟩, (ha st _).mpr ⟨w, c1, hP, hrest, hpos, rfl⟩, ?_⟩
    cases st1
    simp_all

theorem rec_congr {a : Regex}
    {P Q : Nat → List Char → List (Nat × List Char) → List Char → Prop}
    (h : Rec a P) (hPQ : ∀ pos w cs r, P pos w cs r ↔ Q pos w cs r) : Rec a Q := by
  intro st st1
  rw [h st st1]
  constructor
  · rintro ⟨w, cs, hP, hh⟩
    exact ⟨w, cs, (hPQ _ _ _ _).mp hP, hh⟩
  · rintro ⟨w, cs, hQ, hh⟩
    exact ⟨w, cs, (hPQ _ _ _ _).mpr hQ, hh⟩

theorem rec_slashEnd :
    Rec slashEndRe (fun _ w cs r => (w = [] ∨ w = ['/']) ∧ cs = [] ∧ r = []) := by
  refine rec_congr (rec_cat (rec_quest (rec_lit '/')) rec_eol) ?_
  intro pos w cs r
  constructor
  · rintro ⟨w1, w2, c1, c2, rfl, rfl, h1, rfl, rfl, rfl⟩
    rcases h1 with ⟨rfl, rfl⟩ | ⟨rfl, rfl⟩
    · exact ⟨Or.inr rfl, rfl, rfl⟩
    · exact ⟨Or.inl rfl, rfl, rfl⟩
  · rintro ⟨h, rfl, rfl⟩
    rcases h with rfl | rfl
    · exact ⟨[], [], [], [], rfl, rfl, Or.inr ⟨rfl, rfl⟩, rfl, rfl, rfl⟩
    · exact ⟨['/'], [], [], [], rfl, rfl, Or.inl ⟨rfl, rfl⟩, rfl, rfl, rfl⟩

theorem rec_objectEnd :
    Rec objectEndRe (fun _ w cs r => ∃ t, w = '/' :: t ∧
      (t ≠ [] ∧ ∀ c ∈ t, (c != '\n') = true) ∧ cs = [(5, t)] ∧ r = []) := by
  refine rec_congr (rec_cat (rec_lit '/') (rec_cat (rec_cap rec_plus_dot 5 "object") rec_eol)) ?_
  intro pos w cs r
  constructor
  · rintro ⟨w1, w2, c1, c2, rfl, rfl, ⟨rfl, rfl⟩, t, w4, c3, c4, rfl, rfl,
      ⟨c5, ⟨ht, rfl⟩, rfl⟩, rfl, rfl, rfl⟩
    exact ⟨t, by simp, ht, by simp, rfl⟩
  · rintro ⟨t, rfl, ht, rfl, rfl⟩
    exact ⟨['/'], t, [], [(5, t)], rfl, rfl, ⟨rfl, rfl⟩, t, [], [(5, t)], [], by simp, rfl,
      ⟨[], ⟨ht, rfl⟩, rfl⟩, rfl, rfl, rfl⟩

theorem rec_objectDirEnd :
    Rec objectDirEndRe (fun _ w cs r => ∃ u, w = '/' :: (u ++ ['/']) ∧
      (u ≠ [] ∧ ∀ c ∈ u, (c != '\n') = true) ∧ cs = [(5, u ++ ['/'])] ∧ r = []) := by
  refine rec_congr (rec_cat (rec_lit '/')
    (rec_cat (rec_cap (rec_cat rec_plus_dot (rec_lit '/')) 5 "object") rec_eol)) ?_
  intro pos w cs r
  constructor
  · rintro ⟨w1, w2, c1, c2, rfl, rfl, ⟨rfl, rfl⟩, t, w4, c3, c4, rfl, rfl,
      ⟨c5, ⟨u, v, c6, c7, rfl, rfl, ⟨hu, rfl⟩, rfl, rfl⟩, rfl⟩, rfl, rfl, rfl⟩
    exact ⟨u, by simp, hu, by simp, rfl⟩
  · rintro ⟨u, rfl, hu, rfl, rfl⟩
    exact ⟨['/'], u ++ ['/'], [], [(5, u ++ ['/'])], rfl, rfl, ⟨rfl, rfl⟩,
      u ++ ['/'], [], [(5, u ++ ['/'])], [], by simp, rfl,
      ⟨[], ⟨u, ['/'], [], [], rfl, rfl, ⟨hu, rfl⟩, rfl, rfl⟩, rfl⟩, rfl, rfl, rfl⟩

theorem rec_bucket {T : Regex} {Q : Nat → List Char → List (Nat × List Char) → List Char → Prop}
    (hT : Rec T Q) :
    Rec (bucketRe T) (fun pos w cs r => ∃ b w1 c1, w = '/' :: (b ++ w1) ∧
      (3 ≤ b.length ∧ b.length ≤ 63 ∧ ∀ c ∈ b, inClass dnsItems c = true) ∧
      cs = c1 ++ [(4, b)] ∧ Q (pos + 1 + b.length) w1 c1 r) := by
  refine rec_congr (rec_cat (rec_lit '/')
    (rec_cat (rec_cap (rec_rep_cls dnsItems 3 63) 4 "bucket") hT)) ?_
  intro pos w cs r
  constructor
  · rintro ⟨w1, w2, c1, c2, rfl, rfl, ⟨rfl, rfl⟩, b, w4, c3, c4, rfl, rfl,
      ⟨c5, ⟨hb, rfl⟩, rfl⟩, hQ⟩
    exact ⟨b, w4, c4, by simp, hb, by simp, hQ⟩
  · rintro ⟨b, w1, c1, rfl, hb, rfl, hQ⟩
    exact ⟨['/'], b ++ w1, [], c1 ++ [(4, b)], rfl, by simp, ⟨rfl, rfl⟩,
      b, w1, [(4, b)], c1, rfl, rfl, ⟨[], ⟨hb, rfl⟩, rfl⟩, hQ⟩

theorem rec_endpoint :
    Rec (Regex.cap 1 "endpoint" endpointRe)
      (fun _ w cs _ => ∃ k, EndpointCaps w k ∧ cs = (1, w) :: k) := by
  refine rec_congr (rec_cap (rec_cat (rec_plus_cls endpointItems)
    (rec_quest (rec_cap (rec_cat (rec_lit ':') (rec_plus_cls [('0', '9')])) 2 ""))) 1 "endpoint") ?_
  intro pos w cs r
  constructor
  · rintro ⟨k, ⟨w1, w2, c1, c2, rfl, rfl, ⟨hw1, rfl⟩, h2⟩, rfl⟩
    rcases h2 with ⟨c3, ⟨u, d, c4, c5, rfl, rfl, ⟨rfl, rfl⟩, hd, rfl⟩, rfl⟩ | ⟨rfl, rfl⟩
    · exact ⟨_, ⟨w1, ':' :: d, rfl, hw1, Or.inr ⟨d, rfl, hd, by simp⟩⟩, rfl⟩
    · exact ⟨_, ⟨w1, [], rfl, hw1, Or.inl ⟨rfl, rfl⟩⟩, rfl⟩
  · rintro ⟨k, ⟨w1, w2, rfl, hw1, h2⟩, rfl⟩
    rcases h2 with ⟨rfl, rfl⟩ | ⟨d, rfl, hd, rfl⟩
    · exact ⟨[], ⟨w1, [], [], [], rfl, rfl, ⟨hw1, rfl⟩, Or.inr ⟨rfl, rfl⟩⟩, rfl⟩
    · exact ⟨[(2, ':' :: d)], ⟨w1, ':' :: d, [], [(2, ':' :: d)], rfl, rfl, ⟨hw1, rfl⟩,
        Or.inl ⟨[], ⟨[':'], d, [], [], rfl, rfl, ⟨rfl, rfl⟩, hd, rfl⟩, rfl⟩⟩, rfl⟩

theorem rec_head {T : Regex} {Q : Nat → List Char → List (Nat × List Char) → List Char → Prop}
    (hT : Rec T Q) :
    Rec (headRe T) (fun pos w cs r => pos = 0 ∧ ∃ e k rg w1 c1,
      w = '/' :: (e ++ '/' :: (rg ++ w1)) ∧ EndpointCaps e k ∧
      (rg ≠ [] ∧ ∀ c ∈ rg, inClass dnsItems c = true) ∧
      cs = c1 ++ (3, rg) :: (1, e) :: k ∧ Q (2 + e.length + rg.length) w1 c1 r) := by
  refine rec_congr (rec_cat rec_bol (rec_cat (rec_lit '/') (rec_cat rec_endpoint
    (rec_cat (rec_lit '/') (rec_cat (rec_cap (rec_plus_cls dnsItems) 3 "region") hT))))) ?_
  intro pos w cs r
  constructor
  · rintro ⟨w1, w2, c1, c2, rfl, rfl, ⟨rfl, rfl, rfl⟩, w3, w4, c3, c4, rfl, rfl, ⟨rfl, rfl⟩,
      e, w6, c5, c6, rfl, rfl, ⟨k, hk, rfl⟩, w7, w8, c7, c8, rfl, rfl, ⟨rfl, rfl⟩,
      rg, w10, c9, c10, rfl, rfl, ⟨c11, ⟨hrg, rfl⟩, rfl⟩, hQ⟩
    refine ⟨rfl, e, k, rg, w10, c10, by simp, hk, hrg, by simp, ?_⟩
    have hpos : 0 + ([] : List Char).length + ['/'].length + e.length + ['/'].length + rg.length
        = 2 + e.length + rg.length := by
      simp
      omega
    rw [← hpos]
    exact hQ
  · rintro ⟨rfl, e, k, rg, w1, c1, rfl, hk, hrg, rfl, hQ⟩
    refine ⟨[], '/' :: (e ++ '/' :: (rg ++ w1)), [], c1 ++ (3, rg) :: (1, e) :: k, rfl, by simp,
      ⟨rfl, rfl, rfl⟩, ['/'], e ++ '/' :: (rg ++ w1), [], c1 ++ (3, rg) :: (1, e) :: k, rfl,
      by simp, ⟨rfl, rfl⟩, e, '/' :: (rg ++ w1), (1, e) :: k, c1 ++ [(3, rg)], rfl, by simp,
      ⟨k, hk, rfl⟩, ['/'], rg ++ w1, [], c1 ++ [(3, rg)], rfl, by simp, ⟨rfl, rfl⟩,
      rg, w1, [(3, rg)], c1, rfl, rfl, ⟨[], ⟨hrg, rfl⟩, rfl⟩, ?_⟩
    have hpos : 0 + ([] : List Char).length + ['/'].length + e.length + ['/'].length + rg.length
        = 2 + e.length + rg.length := by
      simp
      omega
    rw [hpos]
    exact hQ

theorem split_unique {c : Char} :
    ∀ {a a1 x x1 : List Char}, c ∉ a → c ∉ a1 → a ++ c :: x = a1 ++ c :: x1 →
      a = a1 ∧ x = x1 := by
  intro a
  induction a with
  | nil =>
    intro a1 x x1 _ h1 h
    cases a1 with
    | nil => simpa using h
    | cons y ys =>
      simp only [List.nil_append, List.cons_append, List.cons.injEq] at h
      exact absurd (h.1 ▸ List.mem_cons_self _ _) h1
  | cons z zs ih =>
    intro a1 x x1 h0 h1 h
    cases a1 with
    | nil =>
      simp only [List.nil_append, List.cons_append, List.cons.injEq] at h
      exact absurd (h.1 ▸ List.mem_cons_self _ _) h0
    | cons y ys =>
      simp only [List.cons_append, List.cons.injEq] at h
      obtain ⟨rfl, h⟩ := h
      have := ih (fun hm => h0 (List.mem_cons_of_mem _ hm))
        (fun hm => h1 (List.mem_cons_of_mem _ hm)) h
      exact ⟨by rw [this.1], this.2⟩

theorem run_headRe_succ (T : Regex) (pos : Nat) (rest : List Char) :
    run (headRe T) { pos := pos + 1, rest := rest, caps := [] } = [] := by
  simp [headRe, run]

theorem findFrom_headRe_succ (T : Regex) :
    ∀ (rest : List Char) (pos : Nat), findFrom (headRe T) (pos + 1) rest = none := by
  intro rest
  induction rest with
  | nil =>
    intro pos
    rw [findFrom, run_headRe_succ]
    rfl
  | cons x xs ih =>
    intro pos
    rw [findFrom, run_headRe_succ]
    exact ih (pos + 1)

theorem findFrom_headRe (T : Regex) (s : List Char) :
    findFrom (headRe T) 0 s = ((run (headRe T) (start s)).head?).map (fun st => (s, st)) := by
  cases s with
  | nil =>
    rw [findFrom]
    rfl
  | cons x xs =>
    rw [findFrom, findFrom_headRe_succ]
    unfold start
    cases (run (headRe T) { pos := 0, rest := x :: xs, caps := [] }).head? with
    | none => rfl
    | some st => rfl

theorem ParseObjectPath_eq (path : String) :
    ParseObjectPath path =
      match (run (headRe (bucketRe objectEndRe)) (start path.data)).head? with
      | none => ("", "", "", "", false)
      | some st => (group st 1, group st 3, group st 4, group st 5, true) := by
  have h1 : objectPathEndpointGroupIndex = 1 := by decide!
  have h3 : objectPathRegionGroupIndex = 3 := by decide!
  have h4 : objectPathBucketGroupIndex = 4 := by decide!
  have h5 : objectPathObjectGroupIndex = 5 := by decide!
  have hn : (groupNames (headRe (bucketRe objectEndRe))).length = 5 := by decide!
  unfold ParseObjectPath FindStringSubmatch
  rw [h1, h3, h4, h5, objectPathPattern_eq, findFrom_headRe, hn]
  cases (run (headRe (bucketRe objectEndRe)) (start path.data)).head? with
  | none => rfl
  | some st => rfl

theorem ParseObjectDirPath_eq (path : String) :
    ParseObjectDirPath path =
      match (run (headRe (bucketRe objectDirEndRe)) (start path.data)).head? with
      | none => ("", "", "", "", false)
      | some st => (group st 1, group st 3, group st 4, group st 5, true) := by
  have h1 : objectDirPathEndpointGroupIndex = 1 := by decide!
  have h3 : objectDirPathRegionGroupIndex = 3 := by decide!
  have h4 : objectDirPathBucketGroupIndex = 4 := by decide!
  have h5 : objectDirPathObjectGroupIndex = 5 := by decide!
  have hn : (groupNames (headRe (bucketRe objectDirEndRe))).length = 5 := by decide!
  unfold ParseObjectDirPath FindStringSubmatch
  rw [h1, h3, h4, h5, objectDirPathPattern_eq, findFrom_headRe, hn]
  cases (run (headRe (bucketRe objectDirEndRe)) (start path.data)).head? with
  | none => rfl
  | some st => rfl

theorem ParseBucketPath_eq (path : String) :
    ParseBucketPath path =
      match (run (headRe (bucketRe slashEndRe)) (start path.data)).head? with
      | none => ("", "", "", false)
      | some st => (group st 1, group st 3, group st 4, true) := by
  have h1 : bucketPathEndpointGroupIndex = 1 := by decide!
  have h3 : bucketPathRegionGroupIndex = 3 := by decide!
  have h4 : bucketPathBucketGroupIndex = 4 := by decide!
  have hn : (groupNames (headRe (bucketRe slashEndRe))).length = 4 := by decide!
  unfold ParseBucketPath FindStringSubmatch
  rw [h1, h3, h4, bucketPathPattern_eq, findFrom_headRe, hn]
  cases (run (headRe (bucketRe slashEndRe)) (start path.data)).head? with
  | none => rfl
  | some st => rfl

theorem ParseServicePath_eq (path : String) :
    ParseServicePath path =
      match (run (headRe slashEndRe) (start path.data)).head? with
      | none => ("", "", false)
      | some st => (group st 1, group st 3, true) := by
  have h1 : servicePathEndpointGroupIndex = 1 := by decide!
  have h3 : servicePathRegionGroupIndex = 3 := by decide!
  have hn : (groupNames (headRe slashEndRe)).length = 3 := by decide!
  unfold ParseServicePath FindStringSubmatch
  rw [h1, h3, servicePathPattern_eq, findFrom_headRe, hn]
  cases (run (headRe slashEndRe) (start path.data)).head? with
  | none => rfl
  | some st => rfl

theorem endpointChar_of_digit {c : Char} (h : inClass [('0', '9')] c = true) :
    inClass endpointItems c = true := by
  rw [inClass_endpointItems]
  simp only [inClass, List.any_cons, List.any_nil, Bool.or_false] at h
  simp [isDnsNameChar, h]

theorem endpointCaps_sound {e : List Char} {k : List (Nat × List Char)}
    (h : EndpointCaps e k) : e ≠ [] ∧ ∀ c ∈ e, isEndpointChar c = true := by
  obtain ⟨w1, w2, rfl, ⟨hne, hall⟩, h2⟩ := h
  have hiff : ∀ c, inClass endpointItems c = isEndpointChar c := by
    intro c
    rw [inClass_endpointItems]
    rfl
  refine ⟨by simp [hne], ?_⟩
  intro c hc
  rw [← hiff]
  rcases List.mem_append.mp hc with hc | hc
  · exact hall c hc
  · rcases h2 with ⟨rfl, -⟩ | ⟨d, rfl, ⟨-, hd⟩, -⟩
    · exact absurd hc (List.not_mem_nil _)
    · rcases List.mem_cons.mp hc with rfl | hc
      · decide
      · exact endpointChar_of_digit (hd c hc)

theorem endpointCaps_complete {e : List Char} (hne : e ≠ [])
    (hall : ∀ c ∈ e, isEndpointChar c = true) : EndpointCaps e [] := by
  refine ⟨e, [], by simp, ⟨hne, ?_⟩, Or.inl ⟨rfl, rfl⟩⟩
  intro c hc
  rw [inClass_endpointItems]
  exact hall c hc

theorem endpointChar_of_dns {c : Char} (h : isDnsNameChar c = true) :
    isEndpointChar c = true := by
  simp [isEndpointChar, h]

theorem slash_not_endpoint {e : List Char} (h : ∀ c ∈ e, isEndpointChar c = true) :
    '/' ∉ e := by
  intro hm
  have := h _ hm
  revert this
  decide

theorem slash_not_dns {e : List Char} (h : ∀ c ∈ e, isDnsNameChar c = true) : '/' ∉ e := by
  intro hm
  have := h _ hm
  revert this
  decide

theorem mem_run_object (s : List Char) (st1 : MState) :
    st1 ∈ run (headRe (bucketRe objectEndRe)) (start s) ↔
      ∃ e k rg b t, s = '/' :: (e ++ '/' :: (rg ++ '/' :: (b ++ '/' :: t))) ∧
        EndpointCaps e k ∧ (rg ≠ [] ∧ ∀ c ∈ rg, isDnsNameChar c = true) ∧
        (3 ≤ b.length ∧ b.length ≤ 63 ∧ ∀ c ∈ b, isDnsNameChar c = true) ∧
        (t ≠ [] ∧ ∀ c ∈ t, (c != '\n') = true) ∧
        st1 = ⟨s.length, [], (5, t) :: (4, b) :: (3, rg) :: (1, e) :: k⟩ := by
  rw [rec_head (rec_bucket rec_objectEnd) (start s) st1]
  simp only [inClass_dnsItems]
  constructor
  · rintro ⟨w, cs, ⟨-, e, k, rg, w1, c1, rfl, hk, hrg, rfl, b, w2, c2, rfl, hb, rfl,
      t, rfl, ht, rfl, hr⟩, hrest, hpos, hcaps⟩
    refine ⟨e, k, rg, b, t, ?_, hk, hrg, hb, ht, ?_⟩
    · simp only [start] at hrest
      rw [hrest, hr]
      simp
    · simp only [start] at hrest hpos hcaps
      cases st1
      simp only at hr hpos hcaps hrest
      subst hr
      rw [hrest]
      simp [hpos, hcaps]
  · rintro ⟨e, k, rg, b, t, rfl, hk, hrg, hb, ht, rfl⟩
    refine ⟨'/' :: (e ++ '/' :: (rg ++ '/' :: (b ++ '/' :: t))),
      (5, t) :: (4, b) :: (3, rg) :: (1, e) :: k,
      ⟨rfl, e, k, rg, '/' :: (b ++ '/' :: t), [(5, t), (4, b)], rfl, hk, hrg, rfl,
        b, '/' :: t, [(5, t)], rfl, hb, rfl, t, rfl, ht, rfl, rfl⟩, ?_, ?_, ?_⟩
    · simp [start]
    · simp [start]
    · simp [start]

theorem mem_run_objectDir (s : List Char) (st1 : MState) :
    st1 ∈ run (headRe (bucketRe objectDirEndRe)) (start s) ↔
      ∃ e k rg b u, s = '/' :: (e ++ '/' :: (rg ++ '/' :: (b ++ '/' :: (u ++ ['/'])))) ∧
        EndpointCaps e k ∧ (rg ≠ [] ∧ ∀ c ∈ rg, isDnsNameChar c = true) ∧
        (3 ≤ b.length ∧ b.length ≤ 63 ∧ ∀ c ∈ b, isDnsNameChar c = true) ∧
        (u ≠ [] ∧ ∀ c ∈ u, (c != '\n') = true) ∧
        st1 = ⟨s.length, [], (5, u ++ ['/']) :: (4, b) :: (3, rg) :: (1, e) :: k⟩ := by
  rw [rec_head (rec_bucket rec_objectDirEnd) (start s) st1]
  simp only [inClass_dnsItems]
  constructor
  · rintro ⟨w, cs, ⟨-, e, k, rg, w1, c1, rfl, hk, hrg, rfl, b, w2, c2, rfl, hb, rfl,
      u, rfl, hu, rfl, hr⟩, hrest, hpos, hcaps⟩
    refine ⟨e, k, rg, b, u, ?_, hk, hrg, hb, hu, ?_⟩
    · simp only [start] at hrest
      rw [hrest, hr]
      simp
    · simp only [start] at hrest hpos hcaps
      cases st1
      simp only at hr hpos hcaps hrest
      subst hr
      rw [hrest]
      simp [hpos, hcaps]
  · rintro ⟨e, k, rg, b, u, rfl, hk, hrg, hb, hu, rfl⟩
    refine ⟨'/' :: (e ++ '/' :: (rg ++ '/' :: (b ++ '/' :: (u ++ ['/'])))),
      (5, u ++ ['/']) :: (4, b) :: (3, rg) :: (1, e) :: k,
      ⟨rfl, e, k, rg, '/' :: (b ++ '/' :: (u ++ ['/'])), [(5, u ++ ['/']), (4, b)], rfl, hk, hrg,
        rfl, b, '/' :: (u ++ ['/']), [(5, u ++ ['/'])], rfl, hb, rfl, u, rfl, hu, rfl, rfl⟩,
      ?_, ?_, ?_⟩
    · simp [start]
    · simp [start]
    · simp [start]

theorem object_split_unique {e e1 rg rg1 b b1 t t1 : List Char}
    (he : '/' ∉ e) (he1 : '/' ∉ e1) (hr : '/' ∉ rg) (hr1 : '/' ∉ rg1)
    (hb : '/' ∉ b) (hb1 : '/' ∉ b1)
    (h : '/' :: (e ++ '/' :: (rg ++ '/' :: (b ++ '/' :: t)))
      = '/' :: (e1 ++ '/' :: (rg1 ++ '/' :: (b1 ++ '/' :: t1)))) :
    e = e1 ∧ rg = rg1 ∧ b = b1 ∧ t = t1 := by
  have h1 := split_unique he he1 (List.cons.inj h).2
  have h2 := split_unique hr hr1 h1.2
  have h3 := split_unique hb hb1 h2.2
  exact ⟨h1.1, h2.1, h3.1, h3.2⟩

theorem group_caps (pos : Nat) (rest : List Char) (t b rg e : List Char)
    (k : List (Nat × List Char)) :
    group ⟨pos, rest, (5, t) :: (4, b) :: (3, rg) :: (1, e) :: k⟩ 1 = String.mk e ∧
    group ⟨pos, rest, (5, t) :: (4, b) :: (3, rg) :: (1, e) :: k⟩ 3 = String.mk rg ∧
    group ⟨pos, rest, (5, t) :: (4, b) :: (3, rg) :: (1, e) :: k⟩ 4 = String.mk b ∧
    group ⟨pos, rest, (5, t) :: (4, b) :: (3, rg) :: (1, e) :: k⟩ 5 = String.mk t := by
  simp [group, List.lookup]

theorem isDnsName_iff (s : String) :
    isDnsName s = true ↔ s.data ≠ [] ∧ ∀ c ∈ s.data, isDnsNameChar c = true := by
  simp [isDnsName, List.isEmpty_iff]

theorem isEndpoint_iff (s : String) :
    isEndpoint s = true ↔ s.data ≠ [] ∧ ∀ c ∈ s.data, isEndpointChar c = true := by
  simp [isEndpoint, List.isEmpty_iff]

theorem isBucketName_iff (s : String) :
    isBucketName s = true ↔
      3 ≤ s.data.length ∧ s.data.length ≤ 63 ∧ ∀ c ∈ s.data, isDnsNameChar c = true := by
  simp only [isBucketName, String.length, Bool.and_eq_true, decide_eq_true_eq,
    List.all_eq_true, and_assoc]

theorem noLineFeed_iff (s : String) :
    noLineFeed s = true ↔ ∀ c ∈ s.data, (c != '\n') = true := by
  simp [noLineFeed]

theorem objectPath_data (e r b t : String) :
    ("/" ++ e ++ "/" ++ r ++ "/" ++ b ++ "/" ++ t).data
      = '/' :: (e.data ++ '/' :: (r.data ++ '/' :: (b.data ++ '/' :: t.data))) := by
  simp [String.data_append]

/-- What `ParseObjectPath` accepts and returns: the path is `/e/r/b/t` with `e` a
    non-empty string over `[a-z0-9.-]`, `?`, `:`, `\`, `[`, with `r` a non-empty string
    over `[a-z0-9.-]`, `b` of 3 to 63 such characters and `t` non-empty without line
    feed. -/
theorem ParseObjectPath_iff (path e r b t : String) :
    ParseObjectPath path = (e, r, b, t, true) ↔
      path = "/" ++ e ++ "/" ++ r ++ "/" ++ b ++ "/" ++ t ∧ isEndpoint e = true ∧
        isDnsName r = true ∧ isBucketName b = true ∧ t ≠ "" ∧ noLineFeed t = true := by
  rw [ParseObjectPath_eq, isEndpoint_iff, isDnsName_iff, isBucketName_iff, noLineFeed_iff]
  constructor
  · intro h
    cases hh : (run (headRe (bucketRe objectEndRe)) (start path.data)).head? with
    | none =>
      rw [hh] at h
      simp at h
    | some st =>
      rw [hh] at h
      simp only [Prod.mk.injEq, and_true] at h
      obtain ⟨e1, k, rg, b1, t1, hs, hk, hrg, hb, ht, rfl⟩ :=
        (mem_run_object _ _).mp (List.mem_of_mem_head? hh)
      obtain ⟨g1, g3, g4, g5⟩ := group_caps path.data.length [] t1 b1 rg e1 k
      rw [g1, g3, g4, g5] at h
      obtain ⟨rfl, rfl, rfl, rfl⟩ := h
      refine ⟨?_, endpointCaps_sound hk, hrg, hb, ?_, ht.2⟩
      · apply String.ext
        rw [objectPath_data]
        exact hs
      · intro h0
        exact ht.1 (congrArg String.data h0)
  · rintro ⟨rfl, he, hr, hb, ht0, ht⟩
    have htne : t.data ≠ [] := fun h0 => ht0 (String.ext h0)
    rw [objectPath_data]
    have hmem : (⟨_, [], (5, t.data) :: (4, b.data) :: (3, r.data) :: (1, e.data) :: []⟩ : MState)
        ∈ run (headRe (bucketRe objectEndRe))
          (start ('/' :: (e.data ++ '/' :: (r.data ++ '/' :: (b.data ++ '/' :: t.data))))) :=
      (mem_run_object _ _).mpr ⟨e.data, [], r.data, b.data, t.data, rfl,
        endpointCaps_complete he.1 he.2, hr, hb, ⟨htne, ht⟩, rfl⟩
    cases hh : (run (headRe (bucketRe objectEndRe))
        (start ('/' :: (e.data ++ '/' :: (r.data ++ '/' :: (b.data ++ '/' :: t.data)))))).head? with
    | none =>
      rw [List.head?_eq_none_iff] at hh
      rw [hh] at hmem
      exact absurd hmem (List.not_mem_nil _)
    | some st =>
      obtain ⟨e1, k, rg, b1, t1, hs, hk, hrg, hb1, ht1, rfl⟩ :=
        (mem_run_object _ _).mp (List.mem_of_mem_head? hh)
      obtain ⟨h1, h2, h3, h4⟩ := object_split_unique (slash_not_endpoint he.2)
        (slash_not_endpoint (endpointCaps_sound hk).2) (slash_not_dns hr.2)
        (slash_not_dns hrg.2) (slash_not_dns hb.2.2) (slash_not_dns hb1.2.2) hs
      subst h1 h2 h3 h4
      obtain ⟨g1, g3, g4, g5⟩ := group_caps
        ('/' :: (e.data ++ '/' :: (r.data ++ '/' :: (b.data ++ '/' :: t.data)))).length []
        t.data b.data r.data e.data k
      simp only [g1, g3, g4, g5]

theorem endsInSlash_iff (s : String) :
    endsInSlash s = true ↔ ∃ u, s.data = u ++ ['/'] := by
  simp [endsInSlash, List.getLast?_eq_some_iff]

/-- What `ParseObjectDirPath` accepts and returns: the path is `/e/r/b/t` as for
    `ParseObjectPath`, where `t` has a character other than line feed before its final
    slash. -/
theorem ParseObjectDirPath_iff (path e r b t : String) :
    ParseObjectDirPath path = (e, r, b, t, true) ↔
      path = "/" ++ e ++ "/" ++ r ++ "/" ++ b ++ "/" ++ t ∧ isEndpoint e = true ∧
        isDnsName r = true ∧ isBucketName b = true ∧ endsInSlash t = true ∧
        2 ≤ t.length ∧ noLineFeed t = true := by
  rw [ParseObjectDirPath_eq, isEndpoint_iff, isDnsName_iff, isBucketName_iff, noLineFeed_iff,
    endsInSlash_iff]
  constructor
  · intro h
    cases hh : (run (headRe (bucketRe objectDirEndRe)) (start path.data)).head? with
    | none =>
      rw [hh] at h
      simp at h
    | some st =>
      rw [hh] at h
      simp only [Prod.mk.injEq, and_true] at h
      obtain ⟨e1, k, rg, b1, u, hs, hk, hrg, hb, hu, rfl⟩ :=
        (mem_run_objectDir _ _).mp (List.mem_of_mem_head? hh)
      obtain ⟨g1, g3, g4, g5⟩ := group_caps path.data.length [] (u ++ ['/']) b1 rg e1 k
      rw [g1, g3, g4, g5] at h
      obtain ⟨rfl, rfl, rfl, rfl⟩ := h
      refine ⟨?_, endpointCaps_sound hk, hrg, hb, ⟨u, rfl⟩, ?_, ?_⟩
      · apply String.ext
        rw [objectPath_data]
        exact hs
      · have hlen : 0 < u.length := List.length_pos.mpr hu.1
        simp only [String.length, List.length_append, List.length_singleton]
        omega
      · intro c hc
        rcases List.mem_append.mp hc with hc | hc
        · exact hu.2 c hc
        · rw [List.mem_singleton] at hc
          subst hc
          decide
  · rintro ⟨rfl, he, hr, hb, ⟨u, htu⟩, hlen, ht⟩
    have hune : u ≠ [] := by
      intro h0
      rw [String.length, htu, h0] at hlen
      simp at hlen
    have hu : ∀ c ∈ u, (c != '\n') = true := by
      intro c hc
      exact ht c (by rw [htu]; exact List.mem_append_left _ hc)
    rw [objectPath_data, htu]
    have hmem : (⟨_, [], (5, u ++ ['/']) :: (4, b.data) :: (3, r.data) :: (1, e.data) :: []⟩ :
        MState) ∈ run (headRe (bucketRe objectDirEndRe))
          (start ('/' :: (e.data ++ '/' :: (r.data ++ '/' :: (b.data ++ '/' :: (u ++ ['/'])))))) :=
      (mem_run_objectDir _ _).mpr ⟨e.data, [], r.data, b.data, u, rfl,
        endpointCaps_complete he.1 he.2, hr, hb, ⟨hune, hu⟩, rfl⟩
    cases hh : (run (headRe (bucketRe objectDirEndRe))
        (start ('/' :: (e.data ++ '/' :: (r.data ++ '/' :: (b.data ++ '/' :: (u ++ ['/']))))))).head?
      with
    | none =>
      rw [List.head?_eq_none_iff] at hh
      rw [hh] at hmem
      exact absurd hmem (List.not_mem_nil _)
    | some st =>
      obtain ⟨e1, k, rg, b1, u1, hs, hk, hrg, hb1, hu1, rfl⟩ :=
        (mem_run_objectDir _ _).mp (List.mem_of_mem_head? hh)
      obtain ⟨h1, h2, h3, h4⟩ := object_split_unique (slash_not_endpoint he.2)
        (slash_not_endpoint (endpointCaps_sound hk).2) (slash_not_dns hr.2)
        (slash_not_dns hrg.2) (slash_not_dns hb.2.2) (slash_not_dns hb1.2.2) hs
      subst h1 h2 h3
      obtain ⟨g1, g3, g4, g5⟩ := group_caps
        ('/' :: (e.data ++ '/' :: (r.data ++ '/' :: (b.data ++ '/' :: (u ++ ['/']))))).length []
        (u1 ++ ['/']) b.data r.data e.data k
      have ht1 : String.mk (u1 ++ ['/']) = t := by
        apply String.ext
        rw [htu, h4]
      simp only [g1, g3, g4, g5, ht1]

theorem seg_unique :
    ∀ {a a1 w w1 : List Char}, '/' ∉ a → '/' ∉ a1 → (w = [] ∨ ∃ x, w = '/' :: x) →
      (w1 = [] ∨ ∃ x, w1 = '/' :: x) → a ++ w = a1 ++ w1 → a = a1 ∧ w = w1 := by
  intro a
  induction a with
  | nil =>
    intro a1 w w1 _ h1 hw _ h
    cases a1 with
    | nil => exact ⟨rfl, by simpa using h⟩
    | cons y ys =>
      rcases hw with rfl | ⟨x, rfl⟩
      · simp at h
      · simp only [List.nil_append, List.cons_append, List.cons.injEq] at h
        exact absurd (h.1 ▸ List.mem_cons_self _ _) h1
  | cons z zs ih =>
    intro a1 w w1 h0 h1 hw hw1 h
    cases a1 with
    | nil =>
      rcases hw1 with rfl | ⟨x, rfl⟩
      · simp at h
      · simp only [List.nil_append, List.cons_append, List.cons.injEq] at h
        exact absurd (h.1 ▸ List.mem_cons_self _ _) h0
    | cons y ys =>
      simp only [List.cons_append, List.cons.injEq] at h
      obtain ⟨rfl, h⟩ := h
      have := ih (fun hm => h0 (List.mem_cons_of_mem _ hm))
        (fun hm => h1 (List.mem_cons_of_mem _ hm)) hw hw1 h
      exact ⟨by rw [this.1], this.2⟩

theorem mem_run_service (s : List Char) (st1 : MState) :
    st1 ∈ run (headRe slashEndRe) (start s) ↔
      ∃ e k rg w, s = '/' :: (e ++ '/' :: (rg ++ w)) ∧ (w = [] ∨ w = ['/']) ∧
        EndpointCaps e k ∧ (rg ≠ [] ∧ ∀ c ∈ rg, isDnsNameChar c = true) ∧
        st1 = ⟨s.length, [], (3, rg) :: (1, e) :: k⟩ := by
  rw [rec_head rec_slashEnd (start s) st1]
  simp only [inClass_dnsItems]
  constructor
  · rintro ⟨w, cs, ⟨-, e, k, rg, w1, c1, rfl, hk, hrg, rfl, hw, rfl, hr⟩, hrest, hpos, hcaps⟩
    refine ⟨e, k, rg, w1, ?_, hw, hk, hrg, ?_⟩
    · simp only [start] at hrest
      rw [hrest, hr]
      simp
    · simp only [start] at hrest hpos hcaps
      cases st1
      simp only at hr hpos hcaps hrest
      subst hr
      rw [hrest]
      simp [hpos, hcaps]
  · rintro ⟨e, k, rg, w, rfl, hw, hk, hrg, rfl⟩
    refine ⟨'/' :: (e ++ '/' :: (rg ++ w)), (3, rg) :: (1, e) :: k,
      ⟨rfl, e, k, rg, w, [], rfl, hk, hrg, rfl, hw, rfl, rfl⟩, ?_, ?_, ?_⟩
    · simp [start]
    · simp [start]
    · simp [start]

theorem mem_run_bucket (s : List Char) (st1 : MState) :
    st1 ∈ run (headRe (bucketRe slashEndRe)) (start s) ↔
      ∃ e k rg b w, s = '/' :: (e ++ '/' :: (rg ++ '/' :: (b ++ w))) ∧ (w = [] ∨ w = ['/']) ∧
        EndpointCaps e k ∧ (rg ≠ [] ∧ ∀ c ∈ rg, isDnsNameChar c = true) ∧
        (3 ≤ b.length ∧ b.length ≤ 63 ∧ ∀ c ∈ b, isDnsNameChar c = true) ∧
        st1 = ⟨s.length, [], (4, b) :: (3, rg) :: (1, e) :: k⟩ := by
  rw [rec_head (rec_bucket rec_slashEnd) (start s) st1]
  simp only [inClass_dnsItems]
  constructor
  · rintro ⟨w, cs, ⟨-, e, k, rg, w1, c1, rfl, hk, hrg, rfl, b, w2, c2, rfl, hb, rfl,
      hw, rfl, hr⟩, hrest, hpos, hcaps⟩
    refine ⟨e, k, rg, b, w2, ?_, hw, hk, hrg, hb, ?_⟩
    · simp only [start] at hrest
      rw [hrest, hr]
      simp
    · simp only [start] at hrest hpos hcaps
      cases st1
      simp only at hr hpos hcaps hrest
      subst hr
      rw [hrest]
      simp [hpos, hcaps]
  · rintro ⟨e, k, rg, b, w, rfl, hw, hk, hrg, hb, rfl⟩
    refine ⟨'/' :: (e ++ '/' :: (rg ++ '/' :: (b ++ w))), (4, b) :: (3, rg) :: (1, e) :: k,
      ⟨rfl, e, k, rg, '/' :: (b ++ w), [(4, b)], rfl, hk, hrg, rfl,
        b, w, [], rfl, hb, rfl, hw, rfl, rfl⟩, ?_, ?_, ?_⟩
    · simp [start]
    · simp [start]
    · simp [start]

theorem slashEnd_cases {w : List Char} (h : w = [] ∨ w = ['/']) :
    w = [] ∨ ∃ x, w = '/' :: x := by
  rcases h with rfl | rfl
  · exact Or.inl rfl
  · exact Or.inr ⟨[], rfl⟩

/-- What `ParseServicePath` accepts and returns: the path is `/e/r` or `/e/r/` with `e`
    a non-empty string over `[a-z0-9.-]`, `?`, `:`, `\`, `[` and `r` a non-empty string
    over `[a-z0-9.-]`. -/
theorem ParseServicePath_iff (path e r : String) :
    ParseServicePath path = (e, r, true) ↔
      (path = "/" ++ e ++ "/" ++ r ∨ path = "/" ++ e ++ "/" ++ r ++ "/") ∧
        isEndpoint e = true ∧ isDnsName r = true := by
  rw [ParseServicePath_eq, isEndpoint_iff, isDnsName_iff]
  constructor
  · intro h
    cases hh : (run (headRe slashEndRe) (start path.data)).head? with
    | none =>
      rw [hh] at h
      simp at h
    | some st =>
      rw [hh] at h
      simp only [Prod.mk.injEq, and_true] at h
      obtain ⟨e1, k, rg, w, hs, hw, hk, hrg, rfl⟩ :=
        (mem_run_service _ _).mp (List.mem_of_mem_head? hh)
      have g1 : group ⟨path.data.length, [], (3, rg) :: (1, e1) :: k⟩ 1 = String.mk e1 := by
        simp [group, List.lookup]
      have g3 : group ⟨path.data.length, [], (3, rg) :: (1, e1) :: k⟩ 3 = String.mk rg := by
        simp [group, List.lookup]
      rw [g1, g3] at h
      obtain ⟨rfl, rfl⟩ := h
      refine ⟨?_, endpointCaps_sound hk, hrg⟩
      rcases hw with rfl | rfl
      · left
        apply String.ext
        simpa [String.data_append] using hs
      · right
        apply String.ext
        simpa [String.data_append] using hs
  · rintro ⟨hp, he, hr⟩
    have hs : ∃ w, (w = [] ∨ w = ['/']) ∧ path.data = '/' :: (e.data ++ '/' :: (r.data ++ w)) := by
      rcases hp with rfl | rfl
      · exact ⟨[], Or.inl rfl, by simp [String.data_append]⟩
      · exact ⟨['/'], Or.inr rfl, by simp [String.data_append]⟩
    obtain ⟨w, hw, hs⟩ := hs
    have hmem : (⟨_, [], (3, r.data) :: (1, e.data) :: []⟩ : MState)
        ∈ run (headRe slashEndRe) (start path.data) :=
      (mem_run_service _ _).mpr ⟨e.data, [], r.data, w, hs, hw,
        endpointCaps_complete he.1 he.2, hr, rfl⟩
    cases hh : (run (headRe slashEndRe) (start path.data)).head? with
    | none =>
      rw [List.head?_eq_none_iff] at hh
      rw [hh] at hmem
      exact absurd hmem (List.not_mem_nil _)
    | some st =>
      obtain ⟨e1, k, rg, w1, hs1, hw1, hk, hrg, rfl⟩ :=
        (mem_run_service _ _).mp (List.mem_of_mem_head? hh)
      rw [hs] at hs1
      have h1 := split_unique (slash_not_endpoint he.2)
        (slash_not_endpoint (endpointCaps_sound hk).2) (List.cons.inj hs1).2
      have h2 := seg_unique (slash_not_dns hr.2) (slash_not_dns hrg.2) (slashEnd_cases hw)
        (slashEnd_cases hw1) h1.2
      obtain ⟨h1, -⟩ := h1
      obtain ⟨h2, -⟩ := h2
      subst h1 h2
      simp [group, List.lookup]

/-- What `ParseBucketPath` accepts and returns: the path is `/e/r/b` or `/e/r/b/` with
    `e` and `r` as for `ParseServicePath` and `b` of 3 to 63 characters over
    `[a-z0-9.-]`. -/
theorem ParseBucketPath_iff (path e r b : String) :
    ParseBucketPath path = (e, r, b, true) ↔
      (path = "/" ++ e ++ "/" ++ r ++ "/" ++ b ∨ path = "/" ++ e ++ "/" ++ r ++ "/" ++ b ++ "/") ∧
        isEndpoint e = true ∧ isDnsName r = true ∧ isBucketName b = true := by
  rw [ParseBucketPath_eq, isEndpoint_iff, isDnsName_iff, isBucketName_iff]
  constructor
  · intro h
    cases hh : (run (headRe (bucketRe slashEndRe)) (start path.data)).head? with
    | none =>
      rw [hh] at h
      simp at h
    | some st =>
      rw [hh] at h
      simp only [Prod.mk.injEq, and_true] at h
      obtain ⟨e1, k, rg, b1, w, hs, hw, hk, hrg, hb, rfl⟩ :=
        (mem_run_bucket _ _).mp (List.mem_of_mem_head? hh)
      have g1 : group ⟨path.data.length, [], (4, b1) :: (3, rg) :: (1, e1) :: k⟩ 1
          = String.mk e1 := by
        simp [group, List.lookup]
      have g3 : group ⟨path.data.length, [], (4, b1) :: (3, rg) :: (1, e1) :: k⟩ 3
          = String.mk rg := by
        simp [group, List.lookup]
      have g4 : group ⟨path.data.length, [], (4, b1) :: (3, rg) :: (1, e1) :: k⟩ 4
          = String.mk b1 := by
        simp [group, List.lookup]
      rw [g1, g3, g4] at h
      obtain ⟨rfl, rfl, rfl⟩ := h
      refine ⟨?_, endpointCaps_sound hk, hrg, hb⟩
      rcases hw with rfl | rfl
      · left
        apply String.ext
        simpa [String.data_append] using hs
      · right
        apply String.ext
        simpa [String.data_append] using hs
  · rintro ⟨hp, he, hr, hb⟩
    have hs : ∃ w, (w = [] ∨ w = ['/']) ∧
        path.data = '/' :: (e.data ++ '/' :: (r.data ++ '/' :: (b.data ++ w))) := by
      rcases hp with rfl | rfl
      · exact ⟨[], Or.inl rfl, by simp [String.data_append]⟩
      · exact ⟨['/'], Or.inr rfl, by simp [String.data_append]⟩
    obtain ⟨w, hw, hs⟩ := hs
    have hmem : (⟨_, [], (4, b.data) :: (3, r.data) :: (1, e.data) :: []⟩ : MState)
        ∈ run (headRe (bucketRe slashEndRe)) (start path.data) :=
      (mem_run_bucket _ _).mpr ⟨e.data, [], r.data, b.data, w, hs, hw,
        endpointCaps_complete he.1 he.2, hr, hb, rfl⟩
    cases hh : (run (headRe (bucketRe slashEndRe)) (start path.data)).head? with
    | none =>
      rw [List.head?_eq_none_iff] at hh
      rw [hh] at hmem
      exact absurd hmem (List.not_mem_nil _)
    | some st =>
      obtain ⟨e1, k, rg, b1, w1, hs1, hw1, hk, hrg, hb1, rfl⟩ :=
        (mem_run_bucket _ _).mp (List.mem_of_mem_head? hh)
      rw [hs] at hs1
      have h1 := split_unique (slash_not_endpoint he.2)
        (slash_not_endpoint (endpointCaps_sound hk).2) (List.cons.inj hs1).2
      have h2 := split_unique (slash_not_dns hr.2) (slash_not_dns hrg.2) h1.2
      have h3 := seg_unique (slash_not_dns hb.2.2) (slash_not_dns hb1.2.2) (slashEnd_cases hw)
        (slashEnd_cases hw1) h2.2
      obtain ⟨h1, -⟩ := h1
      obtain ⟨h2, -⟩ := h2
      obtain ⟨h3, -⟩ := h3
      subst h1 h2 h3
      simp [group, List.lookup]

theorem headSplit_unique {path e r e1 r1 : String} (h : HeadSplit path e r)
    (h1 : HeadSplit path e1 r1) : e = e1 ∧ r = r1 := by
  obtain ⟨w, hs, hw, he, hr⟩ := h
  obtain ⟨w1, hs1, hw1, he1, hr1⟩ := h1
  rw [hs] at hs1
  have h2 := split_unique he he1 (List.cons.inj hs1).2
  have h3 := seg_unique hr hr1 hw hw1 h2.2
  exact ⟨String.ext h2.1, String.ext h3.1⟩

theorem headSplit_service {path e r : String} (h : ParseServicePath path = (e, r, true)) :
    HeadSplit path e r := by
  obtain ⟨hp, he, hr⟩ := (ParseServicePath_iff _ _ _).mp h
  rw [isEndpoint_iff] at he
  rw [isDnsName_iff] at hr
  rcases hp with rfl | rfl
  · exact ⟨[], by simp [String.data_append], Or.inl rfl, slash_not_endpoint he.2,
      slash_not_dns hr.2⟩
  · exact ⟨['/'], by simp [String.data_append], Or.inr ⟨[], rfl⟩, slash_not_endpoint he.2,
      slash_not_dns hr.2⟩

theorem headSplit_bucket {path e r b : String} (h : ParseBucketPath path = (e, r, b, true)) :
    HeadSplit path e r := by
  obtain ⟨hp, he, hr, -⟩ := (ParseBucketPath_iff _ _ _ _).mp h
  rw [isEndpoint_iff] at he
  rw [isDnsName_iff] at hr
  rcases hp with rfl | rfl
  · exact ⟨'/' :: b.data, by simp [String.data_append], Or.inr ⟨_, rfl⟩,
      slash_not_endpoint he.2, slash_not_dns hr.2⟩
  · exact ⟨'/' :: (b.data ++ ['/']), by simp [String.data_append], Or.inr ⟨_, rfl⟩,
      slash_not_endpoint he.2, slash_not_dns hr.2⟩

theorem headSplit_object {path e r b t : String}
    (h : ParseObjectPath path = (e, r, b, t, true)) : HeadSplit path e r := by
  obtain ⟨rfl, he, hr, -⟩ := (ParseObjectPath_iff _ _ _ _ _).mp h
  rw [isEndpoint_iff] at he
  rw [isDnsName_iff] at hr
  exact ⟨'/' :: (b.data ++ '/' :: t.data), by simp [String.data_append], Or.inr ⟨_, rfl⟩,
    slash_not_endpoint he.2, slash_not_dns hr.2⟩

theorem headSplit_objectDir {path e r b t : String}
    (h : ParseObjectDirPath path = (e, r, b, t, true)) : HeadSplit path e r := by
  obtain ⟨rfl, he, hr, -⟩ := (ParseObjectDirPath_iff _ _ _ _ _).mp h
  rw [isEndpoint_iff] at he
  rw [isDnsName_iff] at hr
  exact ⟨'/' :: (b.data ++ '/' :: t.data), by simp [String.data_append], Or.inr ⟨_, rfl⟩,
    slash_not_endpoint he.2, slash_not_dns hr.2⟩

/-- Every path `ParseObjectDirPath` accepts is accepted by `ParseObjectPath`, with the
    same fields. -/
theorem objectDir_is_object {path e r b t : String}
    (h : ParseObjectDirPath path = (e, r, b, t, true)) :
    ParseObjectPath path = (e, r, b, t, true) := by
  obtain ⟨hp, he, hr, hb, hs, hlen, hlf⟩ := (ParseObjectDirPath_iff _ _ _ _ _).mp h
  refine (ParseObjectPath_iff _ _ _ _ _).mpr ⟨hp, he, hr, hb, ?_, hlf⟩
  intro h0
  rw [h0] at hlen
  simp at hlen

theorem mkCalls_append (a b : List Event) : mkCalls (a ++ b) = mkCalls a ++ mkCalls b := by
  induction a with
  | nil => rfl
  | cons x xs ih =>
    cases x <;> simp [mkCalls, ih]

theorem makeServiceForward_trace {σ : Type} (api : Backend σ) (e r : String)
    (c : Option credentials) (w : World σ) :
    (makeServiceForward api e r c w).2.trace = w.trace ++ [Event.makeServiceForward e r c] ∧
    (makeServiceForward api e r c w).2.resp = w.resp := by
  unfold makeServiceForward
  simp only [World.log]
  split <;> exact ⟨rfl, rfl⟩

section Calls
variable {σ : Type} (api : Backend σ) (w : World σ)

theorem calls_log_invoke (c : Capability) :
    mkCalls (w.log (Event.invoke c)).trace = mkCalls w.trace := by
  simp [World.log, mkCalls_append, mkCalls]

theorem calls_issue {α : Type} (client : Config) (c : Call) (r : α × σ) :
    mkCalls (w.issue client c r).2.trace = mkCalls w.trace := by
  simp [World.issue, mkCalls_append, mkCalls]

theorem calls_serviceHeadIndex (s : serviceForward) :
    mkCalls (s.HeadIndex w).trace = mkCalls w.trace := by
  simp [serviceForward.HeadIndex, calls_log_invoke]

theorem calls_serviceIndex (s : serviceForward) :
    mkCalls (s.Index api w).trace = mkCalls w.trace := by
  unfold serviceForward.Index
  simp only
  split <;> rename_i h <;>
    simpa [calls_log_invoke, Backend.callListBuckets, Backend.callListObjects,
      Backend.callCreateBucket, Backend.callDeleteBucket, Backend.callGetObject,
      Backend.callPutObject, Backend.callDeleteObject, Backend.callDeleteObjects, calls_issue] using congrArg (fun x => mkCalls x.2.trace) h.symm

theorem calls_bucketHeadIndex (b : bucketForward) :
    mkCalls (b.HeadIndex w).trace = mkCalls w.trace := by
  simp [bucketForward.HeadIndex, calls_log_invoke]

theorem calls_bucketIndex (b : bucketForward) :
    mkCalls (b.Index api w).trace = mkCalls w.trace := by
  unfold bucketForward.Index
  simp only
  split <;> rename_i h <;>
    simpa [calls_log_invoke, Backend.callListBuckets, Backend.callListObjects,
      Backend.callCreateBucket, Backend.callDeleteBucket, Backend.callGetObject,
      Backend.callPutObject, Backend.callDeleteObject, Backend.callDeleteObjects, calls_issue] using congrArg (fun x => mkCalls x.2.trace) h.symm

theorem calls_bucketCreate (b : bucketForward) :
    mkCalls (b.Create api w).trace = mkCalls w.trace := by
  unfold bucketForward.Create
  simp only
  split <;> rename_i h <;>
    simpa [calls_log_invoke, Backend.callListBuckets, Backend.callListObjects,
      Backend.callCreateBucket, Backend.callDeleteBucket, Backend.callGetObject,
      Backend.callPutObject, Backend.callDeleteObject, Backend.callDeleteObjects, calls_issue] using congrArg (fun x => mkCalls x.2.trace) h.symm

theorem calls_bucketDelete (b : bucketForward) :
    mkCalls (b.Delete api w).trace = mkCalls w.trace := by
  unfold bucketForward.Delete
  simp only
  split <;> rename_i h <;>
    simpa [calls_log_invoke, Backend.callListBuckets, Backend.callListObjects,
      Backend.callCreateBucket, Backend.callDeleteBucket, Backend.callGetObject,
      Backend.callPutObject, Backend.callDeleteObject, Backend.callDeleteObjects, calls_issue] using congrArg (fun x => mkCalls x.2.trace) h.symm

theorem calls_objectHeadDownload (o : objectForward) :
    mkCalls (o.HeadDownload api w).trace = mkCalls w.trace := by
  unfold objectForward.HeadDownload
  simp only
  split <;> rename_i h <;>
    simpa [calls_log_invoke, Backend.callListBuckets, Backend.callListObjects,
      Backend.callCreateBucket, Backend.callDeleteBucket, Backend.callGetObject,
      Backend.callPutObject, Backend.callDeleteObject, Backend.callDeleteObjects, calls_issue] using congrArg (fun x => mkCalls x.2.trace) h.symm

theorem calls_objectDownload (o : objectForward) :
    mkCalls (o.Download api w).trace = mkCalls w.trace := by
  unfold objectForward.Download
  simp only
  split <;> rename_i h <;>
    simpa [calls_log_invoke, Backend.callListBuckets, Backend.callListObjects,
      Backend.callCreateBucket, Backend.callDeleteBucket, Backend.callGetObject,
      Backend.callPutObject, Backend.callDeleteObject, Backend.callDeleteObjects, calls_issue] using congrArg (fun x => mkCalls x.2.trace) h.symm

theorem calls_objectUpload (o : objectForward) (contents : String) :
    mkCalls (o.Upload api w contents).trace = mkCalls w.trace := by
  unfold objectForward.Upload
  simp only
  split <;> rename_i h <;>
    simpa [calls_log_invoke, Backend.callListBuckets, Backend.callListObjects,
      Backend.callCreateBucket, Backend.callDeleteBucket, Backend.callGetObject,
      Backend.callPutObject, Backend.callDeleteObject, Backend.callDeleteObjects, calls_issue] using congrArg (fun x => mkCalls x.2.trace) h.symm

theorem calls_objectDelete (o : objectForward) :
    mkCalls (o.Delete api w).trace = mkCalls w.trace := by
  unfold objectForward.Delete
  simp only
  split <;> rename_i h <;>
    simpa [calls_log_invoke, Backend.callListBuckets, Backend.callListObjects,
      Backend.callCreateBucket, Backend.callDeleteBucket, Backend.callGetObject,
      Backend.callPutObject, Backend.callDeleteObject, Backend.callDeleteObjects, calls_issue] using congrArg (fun x => mkCalls x.2.trace) h.symm

theorem calls_objectPrefixHeadIndex (o : objectPrefixForward) :
    mkCalls (o.HeadIndex w).trace = mkCalls w.trace := by
  simp [objectPrefixForward.HeadIndex, calls_log_invoke]

theorem calls_objectPrefixIndex (o : objectPrefixForward) :
    mkCalls (o.Index api w).trace = mkCalls w.trace := by
  unfold objectPrefixForward.Index
  simp only
  split <;> rename_i h <;>
    simpa [calls_log_invoke, Backend.callListBuckets, Backend.callListObjects,
      Backend.callCreateBucket, Backend.callDeleteBucket, Backend.callGetObject,
      Backend.callPutObject, Backend.callDeleteObject, Backend.callDeleteObjects, calls_issue] using congrArg (fun x => mkCalls x.2.trace) h.symm

theorem calls_objectPrefixDelete (o : objectPrefixForward) :
    mkCalls (o.Delete api w).trace = mkCalls w.trace := by
  unfold objectPrefixForward.Delete
  simp only
  split <;> rename_i h
  · simpa [calls_log_invoke, Backend.callListBuckets, Backend.callListObjects,
      Backend.callCreateBucket, Backend.callDeleteBucket, Backend.callGetObject,
      Backend.callPutObject, Backend.callDeleteObject, Backend.callDeleteObjects, calls_issue] using congrArg (fun x => mkCalls x.2.trace) h.symm
  · have h2 := congrArg (fun x => mkCalls x.2.trace) h.symm
    simp only [Backend.callListObjects, calls_issue, calls_log_invoke] at h2
    unfold Backend.callDeleteObjects
    rw [calls_issue, h2]

end Calls

/-- The handler as the composition of its blocks. -/
theorem ServeHTTP_eq {σ : Type} (api : Backend σ) (req : Request) (w : World σ) :
    ServeHTTP api req w =
      if req.Path = "/" then { w with resp := w.resp.Write "Proxy is running" }
      else
        match ParseServicePath req.Path with
        | (endpoint, region, true) => serviceBranch api req (basicCreds req) endpoint region w
        | (_, _, false) =>
          match ParseBucketPath req.Path with
          | (endpoint, region, bucket, true) =>
            bucketBranch api req (basicCreds req) endpoint region bucket w
          | (_, _, _, false) =>
            match (match ParseObjectPath req.Path with
              | (endpoint, region, bucket, object, true) =>
                objectBranch api req (basicCreds req) endpoint region bucket object w
              | (_, _, _, _, false) => Flow.next w) with
            | Flow.returned w => w
            | Flow.next w =>
              match ParseObjectDirPath req.Path with
              | (endpoint, region, bucket, prefix_, true) =>
                objectPrefixBranch api req (basicCreds req) endpoint region bucket prefix_ w
              | (_, _, _, _, false) =>
                { w with resp := Error w.resp "Not Found" StatusNotFound } := rfl

section Branches
variable {σ : Type} (api : Backend σ) (req : Request) (creds : Option credentials)
  (w : World σ)

theorem calls_makeServiceForward (e r : String) :
    mkCalls (makeServiceForward api e r creds w).2.trace = mkCalls w.trace ++ [(e, r, creds)] := by
  rw [(makeServiceForward_trace api e r creds w).1, mkCalls_append]
  rfl

theorem calls_serviceBranch (e r : String) :
    mkCalls (serviceBranch api req creds e r w).trace = mkCalls w.trace ++ [(e, r, creds)] := by
  have ht := calls_makeServiceForward api creds w e r
  unfold serviceBranch
  generalize makeServiceForward api e r creds w = x at ht ⊢
  rcases x with ⟨res, w1⟩
  cases res with
  | error err => exact ht
  | ok svc =>
    simp only
    split_ifs
    · rw [calls_serviceHeadIndex]
      exact ht
    · rw [calls_serviceIndex]
      exact ht
    · exact ht

theorem calls_bucketBranch (e r b : String) :
    mkCalls (bucketBranch api req creds e r b w).trace = mkCalls w.trace ++ [(e, r, creds)] := by
  have ht := calls_makeServiceForward api creds w e r
  unfold bucketBranch
  generalize makeServiceForward api e r creds w = x at ht ⊢
  rcases x with ⟨res, w1⟩
  cases res with
  | error err => exact ht
  | ok svc =>
    simp only
    split_ifs
    · rw [calls_bucketHeadIndex]
      exact ht
    · rw [calls_bucketIndex]
      exact ht
    · exact ht
    · rw [calls_bucketCreate]
      exact ht
    · rw [calls_bucketDelete]
      exact ht
    · exact ht

theorem calls_objectBranch (e r b o : String) :
    mkCalls (objectBranch api req creds e r b o w).world.trace
      = mkCalls w.trace ++ [(e, r, creds)] := by
  have ht := calls_makeServiceForward api creds w e r
  unfold objectBranch
  generalize makeServiceForward api e r creds w = x at ht ⊢
  rcases x with ⟨res, w1⟩
  cases res with
  | error err => exact ht
  | ok svc =>
    simp only
    split_ifs
    · simp only [Flow.world]
      rw [calls_objectHeadDownload]
      exact ht
    · simp only [Flow.world]
      rw [calls_objectDownload]
      exact ht
    · exact ht
    · simp only [Flow.world]
      rw [calls_objectUpload]
      exact ht
    · simp only [Flow.world]
      rw [calls_objectDelete]
      exact ht
    · exact ht

theorem calls_objectPrefixBranch (e r b p : String) :
    mkCalls (objectPrefixBranch api req creds e r b p w).trace
      = mkCalls w.trace ++ [(e, r, creds)] := by
  have ht := calls_makeServiceForward api creds w e r
  unfold objectPrefixBranch
  generalize makeServiceForward api e r creds w = x at ht ⊢
  rcases x with ⟨res, w1⟩
  cases res with
  | error err => exact ht
  | ok svc =>
    simp only
    split_ifs
    · rw [calls_objectPrefixHeadIndex]
      exact ht
    · rw [calls_objectPrefixIndex]
      exact ht
    · rw [calls_objectPrefixDelete]
      exact ht
    · exact ht

end Branches

theorem root_no_match :
    (ParseServicePath "/").2.2 = false ∧ (ParseBucketPath "/").2.2.2 = false ∧
    (ParseObjectPath "/").2.2.2.2 = false ∧ (ParseObjectDirPath "/").2.2.2.2 = false := by
  decide!

theorem serve_calls {σ : Type} (api : Backend σ) (req : Request) (w : World σ) :
    ∃ extra, mkCalls (ServeHTTP api req w).trace = mkCalls w.trace ++ extra ∧
      (∀ c ∈ extra, c.2.2 = basicCreds req ∧ HeadSplit req.Path c.1 c.2.1) ∧
      ((ParseServicePath req.Path).2.2 = true ∨ (ParseBucketPath req.Path).2.2.2 = true ∨
        (ParseObjectPath req.Path).2.2.2.2 = true ∨
        (ParseObjectDirPath req.Path).2.2.2.2 = true → extra ≠ []) := by
  rw [ServeHTTP_eq]
  by_cases hroot : req.Path = "/"
  · rw [if_pos hroot]
    refine ⟨[], by simp, by simp, ?_⟩
    rw [hroot]
    obtain ⟨h1, h2, h3, h4⟩ := root_no_match
    rw [h1, h2, h3, h4]
    simp
  · rw [if_neg hroot]
    rcases hS : ParseServicePath req.Path with ⟨eS, rS, mS⟩
    cases mS with
    | true =>
      refine ⟨[(eS, rS, basicCreds req)], calls_serviceBranch api req _ w eS rS, ?_, by simp⟩
      intro c hc
      rw [List.mem_singleton] at hc
      subst hc
      exact ⟨rfl, headSplit_service hS⟩
    | false =>
      rcases hB : ParseBucketPath req.Path with ⟨eB, rB, bB, mB⟩
      cases mB with
      | true =>
        refine ⟨[(eB, rB, basicCreds req)], calls_bucketBranch api req _ w eB rB bB, ?_, by simp⟩
        intro c hc
        rw [List.mem_singleton] at hc
        subst hc
        exact ⟨rfl, headSplit_bucket hB⟩
      | false =>
        rcases hO : ParseObjectPath req.Path with ⟨eO, rO, bO, oO, mO⟩
        rcases hD : ParseObjectDirPath req.Path with ⟨eD, rD, bD, pD, mD⟩
        cases mO with
        | true =>
          have hc := calls_objectBranch api req (basicCreds req) w eO rO bO oO
          simp only
          cases hF : objectBranch api req (basicCreds req) eO rO bO oO w with
          | returned w1 =>
            rw [hF] at hc
            refine ⟨[(eO, rO, basicCreds req)], hc, ?_, by simp⟩
            intro c hc
            rw [List.mem_singleton] at hc
            subst hc
            exact ⟨rfl, headSplit_object hO⟩
          | next w1 =>
            rw [hF] at hc
            simp only [Flow.world] at hc
            cases mD with
            | true =>
              refine ⟨[(eO, rO, basicCreds req), (eD, rD, basicCreds req)], ?_, ?_, by simp⟩
              · simp only
                rw [calls_objectPrefixBranch, hc]
                simp
              · intro c hc
                rcases List.mem_cons.mp hc with rfl | hc
                · exact ⟨rfl, headSplit_object hO⟩
                · rw [List.mem_singleton] at hc
                  subst hc
                  exact ⟨rfl, headSplit_objectDir hD⟩
            | false =>
              refine ⟨[(eO, rO, basicCreds req)], hc, ?_, by simp⟩
              intro c hc
              rw [List.mem_singleton] at hc
              subst hc
              exact ⟨rfl, headSplit_object hO⟩
        | false =>
          simp only
          cases mD with
          | true =>
            refine ⟨[(eD, rD, basicCreds req)], calls_objectPrefixBranch api req _ w eD rD bD pD,
              ?_, by simp⟩
            intro c hc
            rw [List.mem_singleton] at hc
            subst hc
            exact ⟨rfl, headSplit_objectDir hD⟩
          | false =>
            exact ⟨[], by simp, by simp, by simp⟩

/-- C6. Credential forwarding: when the path of a request matches one of the four
    shapes, the handler calls `makeServiceForward` at least once, and in every such call
    the credentials are absent exactly when `req.BasicAuth()` reports none, and are
    otherwise the user name and password it reports, unchanged, as access key and secret
    key; the endpoint and the region are the ones that each parser matching the path
    extracts. -/
theorem credentials_forwarded {σ : Type} (api : Backend σ) (req : Request) (s : σ)
    (hm : (ParseServicePath req.Path).2.2 = true ∨ (ParseBucketPath req.Path).2.2.2 = true ∨
      (ParseObjectPath req.Path).2.2.2.2 = true ∨
      (ParseObjectDirPath req.Path).2.2.2.2 = true) :
    mkCalls (ServeHTTP api req (World.init s)).trace ≠ [] ∧
    ∀ c ∈ mkCalls (ServeHTTP api req (World.init s)).trace,
      (c.2.2 = none ↔ req.BasicAuth.2.2 = false) ∧
      (req.BasicAuth.2.2 = true →
        c.2.2 = some { accessKey := req.BasicAuth.1, secretKey := req.BasicAuth.2.1 }) ∧
      ((ParseServicePath req.Path).2.2 = true →
        c.1 = (ParseServicePath req.Path).1 ∧ c.2.1 = (ParseServicePath req.Path).2.1) ∧
      ((ParseBucketPath req.Path).2.2.2 = true →
        c.1 = (ParseBucketPath req.Path).1 ∧ c.2.1 = (ParseBucketPath req.Path).2.1) ∧
      ((ParseObjectPath req.Path).2.2.2.2 = true →
        c.1 = (ParseObjectPath req.Path).1 ∧ c.2.1 = (ParseObjectPath req.Path).2.1) ∧
      ((ParseObjectDirPath req.Path).2.2.2.2 = true →
        c.1 = (ParseObjectDirPath req.Path).1 ∧ c.2.1 = (ParseObjectDirPath req.Path).2.1) := by
  obtain ⟨extra, hcalls, hall, hne⟩ := serve_calls api req (World.init s)
  have h0 : mkCalls (World.init s).trace = [] := rfl
  rw [h0, List.nil_append] at hcalls
  rw [hcalls]
  refine ⟨hne hm, ?_⟩
  intro c hc
  obtain ⟨hcreds, hsplit⟩ := hall c hc
  have hb : basicCreds req = (match req.BasicAuth with
      | (username, password, true) => some { accessKey := username, secretKey := password }
      | (_, _, false) => none) := rfl
  refine ⟨?_, ?_, ?_, ?_, ?_, ?_⟩
  · rw [hcreds, hb]
    rcases req.BasicAuth with ⟨u, p, ok⟩
    cases ok <;> simp
  · rw [hcreds, hb]
    rcases req.BasicAuth with ⟨u, p, ok⟩
    cases ok <;> simp
  · intro h
    have hP : ParseServicePath req.Path
        = ((ParseServicePath req.Path).1, (ParseServicePath req.Path).2.1, true) := by
      rw [← h]
    have := headSplit_unique hsplit (headSplit_service hP)
    exact this
  · intro h
    have hP : ParseBucketPath req.Path
        = ((ParseBucketPath req.Path).1, (ParseBucketPath req.Path).2.1,
          (ParseBucketPath req.Path).2.2.1, true) := by
      rw [← h]
    exact headSplit_unique hsplit (headSplit_bucket hP)
  · intro h
    have hP : ParseObjectPath req.Path
        = ((ParseObjectPath req.Path).1, (ParseObjectPath req.Path).2.1,
          (ParseObjectPath req.Path).2.2.1, (ParseObjectPath req.Path).2.2.2.1, true) := by
      rw [← h]
    exact headSplit_unique hsplit (headSplit_object hP)
  · intro h
    have hP : ParseObjectDirPath req.Path
        = ((ParseObjectDirPath req.Path).1, (ParseObjectDirPath req.Path).2.1,
          (ParseObjectDirPath req.Path).2.2.1, (ParseObjectDirPath req.Path).2.2.2.1, true) := by
      rw [← h]
    exact headSplit_unique hsplit (headSplit_objectDir hP)

theorem service_data {path : String} (h : (ParseServicePath path).2.2 = true) :
    ∃ e r w, path.data = '/' :: (e ++ '/' :: (r ++ w)) ∧ '/' ∉ e ∧ '/' ∉ r ∧
      (w = [] ∨ w = ['/']) := by
  rcases hres : ParseServicePath path with ⟨e, r, m⟩
  rw [hres] at h
  simp only at h
  subst h
  obtain ⟨hp, he, hr⟩ := (ParseServicePath_iff _ _ _).mp hres
  rw [isEndpoint_iff] at he
  rw [isDnsName_iff] at hr
  rcases hp with hp | hp
  · exact ⟨e.data, r.data, [], (congrArg String.data hp).trans (by simp [String.data_append]),
      slash_not_endpoint he.2, slash_not_dns hr.2, Or.inl rfl⟩
  · exact ⟨e.data, r.data, ['/'],
      (congrArg String.data hp).trans (by simp [String.data_append]),
      slash_not_endpoint he.2, slash_not_dns hr.2, Or.inr rfl⟩

theorem bucket_data {path : String} (h : (ParseBucketPath path).2.2.2 = true) :
    ∃ e r b w, path.data = '/' :: (e ++ '/' :: (r ++ '/' :: (b ++ w))) ∧ '/' ∉ e ∧ '/' ∉ r ∧
      '/' ∉ b ∧ 3 ≤ b.length ∧ (w = [] ∨ w = ['/']) := by
  rcases hres : ParseBucketPath path with ⟨e, r, b, m⟩
  rw [hres] at h
  simp only at h
  subst h
  obtain ⟨hp, he, hr, hb⟩ := (ParseBucketPath_iff _ _ _ _).mp hres
  rw [isEndpoint_iff] at he
  rw [isDnsName_iff] at hr
  rw [isBucketName_iff] at hb
  rcases hp with hp | hp
  · exact ⟨e.data, r.data, b.data, [],
      (congrArg String.data hp).trans (by simp [String.data_append]),
      slash_not_endpoint he.2, slash_not_dns hr.2, slash_not_dns hb.2.2, hb.1, Or.inl rfl⟩
  · exact ⟨e.data, r.data, b.data, ['/'],
      (congrArg String.data hp).trans (by simp [String.data_append]),
      slash_not_endpoint he.2, slash_not_dns hr.2, slash_not_dns hb.2.2, hb.1, Or.inr rfl⟩

theorem object_data {path : String} (h : (ParseObjectPath path).2.2.2.2 = true) :
    ∃ e r b t, path.data = '/' :: (e ++ '/' :: (r ++ '/' :: (b ++ '/' :: t))) ∧ '/' ∉ e ∧
      '/' ∉ r ∧ '/' ∉ b ∧ t ≠ [] := by
  rcases hres : ParseObjectPath path with ⟨e, r, b, t, m⟩
  rw [hres] at h
  simp only at h
  subst h
  obtain ⟨hp, he, hr, hb, ht, -⟩ := (ParseObjectPath_iff _ _ _ _ _).mp hres
  rw [isEndpoint_iff] at he
  rw [isDnsName_iff] at hr
  rw [isBucketName_iff] at hb
  refine ⟨e.data, r.data, b.data, t.data, ?_, slash_not_endpoint he.2, slash_not_dns hr.2,
    slash_not_dns hb.2.2, ?_⟩
  · exact (congrArg String.data hp).trans (objectPath_data _ _ _ _)
  · intro h0
    exact ht (String.ext h0)

/-- The service, bucket and object shapes exclude one another, and the object-prefix
    shape lies inside the object shape. -/
theorem shapes_overlap_only_in_objectDir (path : String) :
    ¬ ((ParseServicePath path).2.2 = true ∧ (ParseBucketPath path).2.2.2 = true) ∧
    ¬ ((ParseServicePath path).2.2 = true ∧ (ParseObjectPath path).2.2.2.2 = true) ∧
    ¬ ((ParseBucketPath path).2.2.2 = true ∧ (ParseObjectPath path).2.2.2.2 = true) ∧
    ((ParseObjectDirPath path).2.2.2.2 = true → (ParseObjectPath path).2.2.2.2 = true) := by
  refine ⟨?_, ?_, ?_, ?_⟩
  · rintro ⟨hS, hB⟩
    obtain ⟨e, r, w, hs, he, hr, hw⟩ := service_data hS
    obtain ⟨e1, r1, b, w1, hs1, he1, hr1, -, hb, -⟩ := bucket_data hB
    rw [hs] at hs1
    have h1 := split_unique he he1 (List.cons.inj hs1).2
    have h2 := seg_unique hr hr1 (slashEnd_cases hw) (Or.inr ⟨_, rfl⟩) h1.2
    rcases hw with rfl | rfl
    · simp at h2
    · have h3 := (List.cons.inj h2.2).2
      have h4 : (b ++ w1).length = 0 := by rw [← h3]; rfl
      rw [List.length_append] at h4
      omega
  · rintro ⟨hS, hO⟩
    obtain ⟨e, r, w, hs, he, hr, hw⟩ := service_data hS
    obtain ⟨e1, r1, b, t, hs1, he1, hr1, -, -⟩ := object_data hO
    rw [hs] at hs1
    have h1 := split_unique he he1 (List.cons.inj hs1).2
    have h2 := seg_unique hr hr1 (slashEnd_cases hw) (Or.inr ⟨_, rfl⟩) h1.2
    rcases hw with rfl | rfl
    · simp at h2
    · have h3 := (List.cons.inj h2.2).2
      have h4 : (b ++ '/' :: t).length = 0 := by rw [← h3]; rfl
      rw [List.length_append, List.length_cons] at h4
      omega
  · rintro ⟨hB, hO⟩
    obtain ⟨e, r, b, w, hs, he, hr, hb, -, hw⟩ := bucket_data hB
    obtain ⟨e1, r1, b1, t, hs1, he1, hr1, hb1, ht⟩ := object_data hO
    rw [hs] at hs1
    have h1 := split_unique he he1 (List.cons.inj hs1).2
    have h2 := split_unique hr hr1 h1.2
    have h3 := seg_unique hb hb1 (slashEnd_cases hw) (Or.inr ⟨_, rfl⟩) h2.2
    rcases hw with rfl | rfl
    · simp at h3
    · exact ht (List.cons.inj h3.2).2.symm
  · intro hD
    have hP : ParseObjectDirPath path
        = ((ParseObjectDirPath path).1, (ParseObjectDirPath path).2.1,
          (ParseObjectDirPath path).2.2.1, (ParseObjectDirPath path).2.2.2.1, true) := by
      rw [← hD]
    rw [objectDir_is_object hP]

/-- When the path is not the root and no shape matches, the handler writes 404 and does
    nothing else: no backend is built and no storage call is issued. -/
theorem notFound_of_no_match {σ : Type} (api : Backend σ) (req : Request) (w : World σ)
    (hroot : req.Path ≠ "/") (hS : (ParseServicePath req.Path).2.2 = false)
    (hB : (ParseBucketPath req.Path).2.2.2 = false)
    (hO : (ParseObjectPath req.Path).2.2.2.2 = false)
    (hD : (ParseObjectDirPath req.Path).2.2.2.2 = false) :
    ServeHTTP api req w = { w with resp := Error w.resp "Not Found" StatusNotFound } := by
  rw [ServeHTTP_eq, if_neg hroot]
  rcases hS1 : ParseServicePath req.Path with ⟨eS, rS, mS⟩
  rcases hB1 : ParseBucketPath req.Path with ⟨eB, rB, bB, mB⟩
  rcases hO1 : ParseObjectPath req.Path with ⟨eO, rO, bO, oO, mO⟩
  rcases hD1 : ParseObjectDirPath req.Path with ⟨eD, rD, bD, pD, mD⟩
  rw [hS1] at hS
  rw [hB1] at hB
  rw [hO1] at hO
  rw [hD1] at hD
  simp only at hS hB hO hD
  subst hS hB hO hD
  rfl

/-- When the path matches the object shape and not the object-prefix shape, and the
    handler does not return for a failed backend construction, the last thing it does
    is to write the 404 error, after the switch of the object block has run. -/
theorem notFound_after_object {σ : Type} (api : Backend σ) (req : Request) (w : World σ)
    (hO : (ParseObjectPath req.Path).2.2.2.2 = true)
    (hD : (ParseObjectDirPath req.Path).2.2.2.2 = false) :
    (∃ w1, objectBranch api req (basicCreds req) (ParseObjectPath req.Path).1
        (ParseObjectPath req.Path).2.1 (ParseObjectPath req.Path).2.2.1
        (ParseObjectPath req.Path).2.2.2.1 w = Flow.returned w1 ∧ ServeHTTP api req w = w1) ∨
    (∃ w1, objectBranch api req (basicCreds req) (ParseObjectPath req.Path).1
        (ParseObjectPath req.Path).2.1 (ParseObjectPath req.Path).2.2.1
        (ParseObjectPath req.Path).2.2.2.1 w = Flow.next w1 ∧
      ServeHTTP api req w = { w1 with resp := Error w1.resp "Not Found" StatusNotFound }) := by
  obtain ⟨-, hSO, hBO, -⟩ := shapes_overlap_only_in_objectDir req.Path
  have hS : (ParseServicePath req.Path).2.2 = false := by
    cases h : (ParseServicePath req.Path).2.2 with
    | false => rfl
    | true => exact absurd ⟨h, hO⟩ hSO
  have hB : (ParseBucketPath req.Path).2.2.2 = false := by
    cases h : (ParseBucketPath req.Path).2.2.2 with
    | false => rfl
    | true => exact absurd ⟨h, hO⟩ hBO
  have hroot : req.Path ≠ "/" := by
    intro h
    rw [h, root_no_match.2.2.1] at hO
    exact Bool.noConfusion hO
  rw [ServeHTTP_eq, if_neg hroot]
  rcases hS1 : ParseServicePath req.Path with ⟨eS, rS, mS⟩
  rcases hB1 : ParseBucketPath req.Path with ⟨eB, rB, bB, mB⟩
  rcases hO1 : ParseObjectPath req.Path with ⟨eO, rO, bO, oO, mO⟩
  rcases hD1 : ParseObjectDirPath req.Path with ⟨eD, rD, bD, pD, mD⟩
  rw [hS1] at hS
  rw [hB1] at hB
  rw [hO1] at hO
  rw [hD1] at hD
  simp only at hS hB hO hD
  subst hS hB hO hD
  simp only
  cases hF : objectBranch api req (basicCreds req) eO rO bO oO w with
  | returned w1 => exact Or.inl ⟨w1, rfl, rfl⟩
  | next w1 => exact Or.inr ⟨w1, rfl, rfl⟩

/-- C1. The path `/s3.example.com/us-east-1/my-bucket/dir/` is accepted both by
    `ParseObjectPath` and by `ParseObjectDirPath`, each with the object `dir/`. -/
theorem object_and_objectDir_overlap :
    ParseObjectPath "/s3.example.com/us-east-1/my-bucket/dir/"
      = ("s3.example.com", "us-east-1", "my-bucket", "dir/", true) ∧
    ParseObjectDirPath "/s3.example.com/us-east-1/my-bucket/dir/"
      = ("s3.example.com", "us-east-1", "my-bucket", "dir/", true) := by
  decide!

/-- C7. `ParseServicePath` rejects the path `/https://s3.example.com/us-east-1`, whose
    endpoint `https://s3.example.com` has the scheme marker, and accepts the paths
    `/a?b/us-east-1` and `/[\/us-east-1`, whose endpoints contain `?`, `[` and `\`. -/
theorem endpoint_grammar_differs :
    ParseServicePath "/https://s3.example.com/us-east-1" = ("", "", false) ∧
    ParseServicePath "/http://s3.example.com/us-east-1" = ("", "", false) ∧
    ParseServicePath "/a?b/us-east-1" = ("a?b", "us-east-1", true) ∧
    ParseServicePath "/[\\/us-east-1" = ("[\\", "us-east-1", true) := by
  decide!

/-- C3. On the object-prefix path `/s3.example.com/us-east-1/my-bucket/dir/`, with a
    backend on which every call succeeds, GET enters `objectForward.Download` and reads
    the object `dir/` before the prefix is listed, and POST enters `objectForward.Upload`
    and stores the object `dir/` before the 405 response is written. -/
theorem objectPrefix_path_runs_object_capability :
    ParseObjectDirPath "/s3.example.com/us-east-1/my-bucket/dir/"
      = ("s3.example.com", "us-east-1", "my-bucket", "dir/", true) ∧
    (ServeHTTP okBackend (exampleRequest "GET" "/s3.example.com/us-east-1/my-bucket/dir/")
        (World.init ())).trace
      = [Event.makeServiceForward "s3.example.com" "us-east-1" none,
          Event.invoke (Capability.objectDownload "my-bucket" "dir/"),
          Event.call exampleClient (Call.GetObject "my-bucket" "dir/"),
          Event.makeServiceForward "s3.example.com" "us-east-1" none,
          Event.invoke (Capability.objectPrefixIndex "my-bucket" "dir/"),
          Event.call exampleClient (Call.ListObjects "my-bucket" (some "dir/"))] ∧
    (ServeHTTP okBackend (exampleRequest "POST" "/s3.example.com/us-east-1/my-bucket/dir/")
        (World.init ())).trace
      = [Event.makeServiceForward "s3.example.com" "us-east-1" none,
          Event.invoke (Capability.objectUpload "my-bucket" "dir/" ""),
          Event.call exampleClient (Call.PutObject "my-bucket" "dir/" ""),
          Event.makeServiceForward "s3.example.com" "us-east-1" none] ∧
    (ServeHTTP okBackend (exampleRequest "POST" "/s3.example.com/us-east-1/my-bucket/dir/")
        (World.init ())).resp.status = some StatusMethodNotAllowed := by
  decide!

/-- C4. With a backend on which every call succeeds, PUT on the bucket path
    `/s3.example.com/us-east-1/my-bucket` builds the backend and does nothing more, where
    POST enters `bucketForward.Create`; PUT on the object path
    `/s3.example.com/us-east-1/my-bucket/key` builds the backend and enters no
    capability, where POST enters `objectForward.Upload`. -/
theorem put_is_not_post :
    (ServeHTTP okBackend (exampleRequest "PUT" "/s3.example.com/us-east-1/my-bucket")
        (World.init ())).trace
      = [Event.makeServiceForward "s3.example.com" "us-east-1" none] ∧
    (ServeHTTP okBackend (exampleRequest "POST" "/s3.example.com/us-east-1/my-bucket")
        (World.init ())).trace
      = [Event.makeServiceForward "s3.example.com" "us-east-1" none,
          Event.invoke (Capability.bucketCreate "my-bucket"),
          Event.call exampleClient (Call.CreateBucket "my-bucket")] ∧
    (ServeHTTP okBackend (exampleRequest "PUT" "/s3.example.com/us-east-1/my-bucket/key")
        (World.init ())).trace
      = [Event.makeServiceForward "s3.example.com" "us-east-1" none] ∧
    (ServeHTTP okBackend (exampleRequest "POST" "/s3.example.com/us-east-1/my-bucket/key")
        (World.init ())).trace
      = [Event.makeServiceForward "s3.example.com" "us-east-1" none,
          Event.invoke (Capability.objectUpload "my-bucket" "key" ""),
          Event.call exampleClient (Call.PutObject "my-bucket" "key" "")] := by
  decide!

/-- C5. The path `/s3.example.com/us-east-1/my-bucket/dir/file.txt` matches the object
    shape; with a backend on which every call succeeds, DELETE on it deletes the object
    and then writes the 404 response `Not Found`. -/
theorem object_path_gets_not_found :
    ParseObjectPath "/s3.example.com/us-east-1/my-bucket/dir/file.txt"
      = ("s3.example.com", "us-east-1", "my-bucket", "dir/file.txt", true) ∧
    (ServeHTTP okBackend
        (exampleRequest "DELETE" "/s3.example.com/us-east-1/my-bucket/dir/file.txt")
        (World.init ())).trace
      = [Event.makeServiceForward "s3.example.com" "us-east-1" none,
          Event.invoke (Capability.objectDelete "my-bucket" "dir/file.txt"),
          Event.call exampleClient (Call.DeleteObject "my-bucket" "dir/file.txt")] ∧
    (ServeHTTP okBackend
        (exampleRequest "DELETE" "/s3.example.com/us-east-1/my-bucket/dir/file.txt")
        (World.init ())).resp
      = { status := some StatusNotFound,
          header := [("X-Content-Type-Options", "nosniff"),
            ("Content-Type", "text/plain; charset=utf-8")],
          body := "Not Found\n" } := by
  decide!

/-- C9. When `DeleteObjects` fails with the message `AccessDenied`,
    `objectPrefixForward.Delete` has issued the call and leaves the response untouched:
    no status, no header, no body. -/
theorem objectPrefixDelete_drops_error :
    (deleteFailsBackend.DeleteObjects exampleClient "my-bucket" ["dir/a"] ()).1
      = some "AccessDenied" ∧
    (examplePrefixForward.Delete deleteFailsBackend (World.init ())).trace
      = [Event.invoke (Capability.objectPrefixDelete "my-bucket" "dir/"),
          Event.call exampleClient (Call.ListObjects "my-bucket" (some "dir/")),
          Event.call exampleClient (Call.DeleteObjects "my-bucket" ["dir/a"])] ∧
    (examplePrefixForward.Delete deleteFailsBackend (World.init ())).resp
      = { status := none, header := [], body := "" } := by
  decide!

theorem isEndpoint_of_isDnsName {e : String} (h : isDnsName e = true) : isEndpoint e = true := by
  rw [isDnsName_iff] at h
  rw [isEndpoint_iff]
  exact ⟨h.1, fun c hc => endpointChar_of_dns (h.2 c hc)⟩

/-- C2. Object-path round trip: for a non-empty endpoint `e` and region `r` over
    `[a-z0-9.-]`, a bucket `b` of 3 to 63 such characters and a non-empty tail `t` that
    contains no line feed and does not end in a slash, `ParseObjectPath` applied to
    `/e/r/b/t` returns `(e, r, b, t, true)`. -/
theorem objectPath_roundtrip (e r b t : String) (he : isDnsName e = true)
    (hr : isDnsName r = true) (hb : isBucketName b = true) (ht : t ≠ "")
    (hlf : noLineFeed t = true) (_hs : endsInSlash t = false) :
    ParseObjectPath ("/" ++ e ++ "/" ++ r ++ "/" ++ b ++ "/" ++ t) = (e, r, b, t, true) :=
  (ParseObjectPath_iff _ e r b t).mpr ⟨rfl, isEndpoint_of_isDnsName he, hr, hb, ht, hlf⟩

theorem objectPath_roundtrip_witness :
    (isDnsName "s3.example.com" = true ∧ isDnsName "us-east-1" = true ∧
      isBucketName "my-bucket" = true ∧ "dir/file.txt" ≠ "" ∧
      noLineFeed "dir/file.txt" = true ∧ endsInSlash "dir/file.txt" = false) ∧
    ParseObjectPath "/s3.example.com/us-east-1/my-bucket/dir/file.txt"
      = ("s3.example.com", "us-east-1", "my-bucket", "dir/file.txt", true) :=
  ⟨by decide, objectPath_roundtrip "s3.example.com" "us-east-1" "my-bucket" "dir/file.txt"
    (by decide) (by decide) (by decide) (by decide) (by decide) (by decide)⟩

/-- C10, the claim as stated fails. The one-character tail `/` ends in a slash and the
    tail of `a`, line feed, `/` ends in a slash, and `ParseObjectDirPath` accepts neither
    `/s3.example.com/us-east-1/my-bucket//` nor the path with the second tail. -/
theorem objectDirPath_not_only_trailing_slash :
    ¬ (ParseObjectDirPath ("/" ++ "s3.example.com" ++ "/" ++ "us-east-1" ++ "/" ++ "my-bucket"
          ++ "/" ++ "/") = ("s3.example.com", "us-east-1", "my-bucket", "/", true)
        ↔ endsInSlash "/" = true) ∧
    ¬ (ParseObjectDirPath ("/" ++ "s3.example.com" ++ "/" ++ "us-east-1" ++ "/" ++ "my-bucket"
          ++ "/" ++ "a\n/") = ("s3.example.com", "us-east-1", "my-bucket", "a\n/", true)
        ↔ endsInSlash "a\n/" = true) := by
  decide!

/-- C10, amended. For a non-empty endpoint `e` and region `r` over `[a-z0-9.-]`, a
    bucket `b` of 3 to 63 such characters and a non-empty tail `t`, `ParseObjectDirPath`
    applied to `/e/r/b/t` returns `(e, r, b, t, true)` if and only if `t` ends in a
    slash, has at least two characters and contains no line feed. -/
theorem objectDirPath_iff_trailing_slash (e r b t : String) (he : isDnsName e = true)
    (hr : isDnsName r = true) (hb : isBucketName b = true) (_ht : t ≠ "") :
    ParseObjectDirPath ("/" ++ e ++ "/" ++ r ++ "/" ++ b ++ "/" ++ t) = (e, r, b, t, true) ↔
      endsInSlash t = true ∧ 2 ≤ t.length ∧ noLineFeed t = true := by
  rw [ParseObjectDirPath_iff]
  constructor
  · rintro ⟨-, -, -, -, h⟩
    exact h
  · intro h
    exact ⟨rfl, isEndpoint_of_isDnsName he, hr, hb, h⟩

theorem objectDirPath_iff_trailing_slash_witness :
    (isDnsName "s3.example.com" = true ∧ isDnsName "us-east-1" = true ∧
      isBucketName "my-bucket" = true ∧ "dir/file.txt/" ≠ "") ∧
    ParseObjectDirPath "/s3.example.com/us-east-1/my-bucket/dir/file.txt/"
      = ("s3.example.com", "us-east-1", "my-bucket", "dir/file.txt/", true) :=
  ⟨by decide, (objectDirPath_iff_trailing_slash "s3.example.com" "us-east-1" "my-bucket"
    "dir/file.txt/" (by decide) (by decide) (by decide) (by decide)).mpr (by decide)⟩

/-- C8. `objectPrefixForward.Delete`: when `ListObjects` for the bucket and prefix fails,
    that call is the only storage call, the service is left in the state that call left
    it in, and the response is the error written by `processError`; when it returns `n`
    objects, exactly one `DeleteObjects` call follows, for the same bucket, whose keys
    are the keys of the objects in order, the service is left in the state in which the
    backend answers that `DeleteObjects` call issued after the listing, and nothing is
    written to the response. -/
theorem objectPrefixDelete_spec {σ : Type} (api : Backend σ) (o : objectPrefixForward)
    (w : World σ) :
    (∀ err, (api.ListObjects o.s3 o.bucket (some o.prefix_) w.s3).1 = Except.error err →
      (o.Delete api w).trace = w.trace ++
        [Event.invoke (Capability.objectPrefixDelete o.bucket o.prefix_),
          Event.call o.s3 (Call.ListObjects o.bucket (some o.prefix_))] ∧
      (o.Delete api w).resp = processError w.resp err ∧
      (o.Delete api w).s3 = (api.ListObjects o.s3 o.bucket (some o.prefix_) w.s3).2) ∧
    (∀ objs, (api.ListObjects o.s3 o.bucket (some o.prefix_) w.s3).1 = Except.ok objs →
      ∃ keys : List String,
        (o.Delete api w).trace = w.trace ++
          [Event.invoke (Capability.objectPrefixDelete o.bucket o.prefix_),
            Event.call o.s3 (Call.ListObjects o.bucket (some o.prefix_)),
            Event.call o.s3 (Call.DeleteObjects o.bucket keys)] ∧
        keys.length = objs.length ∧
        (∀ i : Nat, keys[i]? = (objs[i]?).map (fun obj : Object => obj.Key)) ∧
        (o.Delete api w).resp = w.resp ∧
        (o.Delete api w).s3 = (api.DeleteObjects o.s3 o.bucket keys
          (api.ListObjects o.s3 o.bucket (some o.prefix_) w.s3).2).2) := by
  constructor
  · intro err h
    simp [objectPrefixForward.Delete, Backend.callListObjects, World.issue, World.log, h]
  · intro objs h
    refine ⟨objs.map (fun obj => obj.Key), ?_, by simp, by simp, ?_, ?_⟩
    · simp [objectPrefixForward.Delete, Backend.callListObjects, Backend.callDeleteObjects,
        World.issue, World.log, h]
    · simp [objectPrefixForward.Delete, Backend.callListObjects, Backend.callDeleteObjects,
        World.issue, World.log, h]
    · simp [objectPrefixForward.Delete, Backend.callListObjects, Backend.callDeleteObjects,
        World.issue, World.log, h]

theorem objectPrefixDelete_spec_witness :
    (examplePrefixForward.Delete twoObjectsBackend (World.init ())).trace
      = [Event.invoke (Capability.objectPrefixDelete "my-bucket" "dir/"),
          Event.call exampleClient (Call.ListObjects "my-bucket" (some "dir/")),
          Event.call exampleClient (Call.DeleteObjects "my-bucket" ["dir/a", "dir/b"])] ∧
    (examplePrefixForward.Delete okBackend (World.init ())).trace
      = [Event.invoke (Capability.objectPrefixDelete "my-bucket" "dir/"),
          Event.call exampleClient (Call.ListObjects "my-bucket" (some "dir/")),
          Event.call exampleClient (Call.DeleteObjects "my-bucket" [])] ∧
    (examplePrefixForward.Delete okBackend (World.init ())).resp
      = { status := none, header := [], body := "" } ∧
    (examplePrefixForward.Delete storeBackend (World.init ["dir/a", "dir/b"])).s3 = [] := by
  obtain ⟨k0, h0, hl0, -, hr0, -⟩ := (objectPrefixDelete_spec okBackend examplePrefixForward
    (World.init ())).2 _ rfl
  obtain ⟨k2, h2, -, -, -, hs2⟩ := (objectPrefixDelete_spec storeBackend examplePrefixForward
    (World.init ["dir/a", "dir/b"])).2 _ rfl
  have e0 : k0 = [] := List.length_eq_zero.mp hl0
  subst e0
  have ht : (examplePrefixForward.Delete storeBackend (World.init ["dir/a", "dir/b"])).trace
      = [Event.invoke (Capability.objectPrefixDelete "my-bucket" "dir/"),
          Event.call exampleClient (Call.ListObjects "my-bucket" (some "dir/")),
          Event.call exampleClient (Call.DeleteObjects "my-bucket" ["dir/a", "dir/b"])] := by
    decide!
  rw [ht] at h2
  have e2 : k2 = ["dir/a", "dir/b"] := by
    have h3 : Event.call exampleClient (Call.DeleteObjects "my-bucket" ["dir/a", "dir/b"])
        = Event.call examplePrefixForward.s3
          (Call.DeleteObjects examplePrefixForward.bucket k2) := by
      have h4 := congrArg (fun l => l.getLast?) h2
      simpa [World.init] using h4
    injection h3 with _ h5
    injection h5 with _ h6
    exact h6.symm
  subst e2
  refine ⟨by decide!, h0, hr0, ?_⟩
  rw [hs2]
  decide!

theorem credentials_forwarded_witness :
    (ParseObjectPath authRequest.Path).2.2.2.2 = true ∧
    mkCalls (ServeHTTP okBackend authRequest (World.init ())).trace ≠ [] ∧
    ∀ c ∈ mkCalls (ServeHTTP okBackend authRequest (World.init ())).trace,
      c = ("s3.example.com", "us-east-1",
        some { accessKey := "AKIAEXAMPLE", secretKey := "secret" }) := by
  have hm : (ParseObjectPath authRequest.Path).2.2.2.2 = true := by decide!
  have h4 : ParseObjectPath authRequest.Path
      = ("s3.example.com", "us-east-1", "my-bucket", "dir/file.txt", true) := by decide!
  have key := credentials_forwarded okBackend authRequest () (Or.inr (Or.inr (Or.inl hm)))
  refine ⟨hm, key.1, ?_⟩
  intro c hc
  obtain ⟨-, hcreds, -, -, hobj, -⟩ := key.2 c hc
  have h1 := hcreds rfl
  obtain ⟨h2, h3⟩ := hobj hm
  rw [h4] at h2 h3
  rcases c with ⟨c1, c2, c3⟩
  simp only at h1 h2 h3
  rw [h1, h2, h3]
  rfl

theorem endpointChar_of_isDigit {c : Char} (h : isDigitChar c = true) :
    isEndpointChar c = true := by
  simp only [isDigitChar] at h
  simp [isEndpointChar, isDnsNameChar, h]

theorem isEndpoint_of_isHostPort {e : String} (h : isHostPort e = true) :
    isEndpoint e = true := by
  simp only [isHostPort, Bool.and_eq_true, Bool.or_eq_true, Bool.not_eq_true',
    List.isEmpty_eq_false, List.all_eq_true, List.isEmpty_iff] at h
  obtain ⟨⟨hne, hhost⟩, hport⟩ := h
  rw [isEndpoint_iff]
  have hsplit := List.takeWhile_append_dropWhile (fun c => c != ':') e.data
  constructor
  · intro h0
    rw [h0] at hne
    exact hne rfl
  · intro c hc
    rw [← hsplit] at hc
    rcases List.mem_append.mp hc with hc | hc
    · exact endpointChar_of_dns (hhost c hc)
    · rcases hport with hp | ⟨-, hd⟩
      · rw [hp] at hc
        exact absurd hc (List.not_mem_nil _)
      · cases hdw : List.dropWhile (fun c => c != ':') e.data with
        | nil =>
          rw [hdw] at hc
          exact absurd hc (List.not_mem_nil _)
        | cons x xs =>
          have hx : (fun c => c != ':') x = false := by
            have := List.head_dropWhile_not (fun c => c != ':') e.data
              (by rw [hdw]; exact List.cons_ne_nil _ _)
            simpa [hdw] using this
          have hx2 : x = ':' := by simpa using hx
          rw [hdw] at hc hd
          rcases List.mem_cons.mp hc with rfl | hc
          · rw [hx2]
            decide
          · exact endpointChar_of_isDigit (hd c hc)

/-- C7, the claim as stated fails. The endpoint `s3.example.com:9000` is not a string
    over `[a-z0-9.-]` with an optional `http://` or `https://` before it, and
    `ParseServicePath` accepts `/s3.example.com:9000/us-east-1` with that endpoint. -/
theorem endpoint_with_port_is_accepted :
    ¬ (ParseServicePath ("/" ++ "s3.example.com:9000" ++ "/" ++ "us-east-1")
          = ("s3.example.com:9000", "us-east-1", true)
        ↔ isSchemeDnsName "s3.example.com:9000" = true) := by
  decide!

/-- C7, amended. For a non-empty region `r` over `[a-z0-9.-]` and an endpoint `e` that is
    a non-empty string over `[a-z0-9.-]`, optionally followed by a colon and one or more
    digits, `ParseServicePath` applied to `/e/r` returns `(e, r, true)`. -/
theorem servicePath_accepts_host_port (e r : String) (he : isHostPort e = true)
    (hr : isDnsName r = true) :
    ParseServicePath ("/" ++ e ++ "/" ++ r) = (e, r, true) :=
  (ParseServicePath_iff _ e r).mpr ⟨Or.inl rfl, isEndpoint_of_isHostPort he, hr⟩

theorem servicePath_accepts_host_port_witness :
    (isHostPort "s3.example.com:9000" = true ∧ isDnsName "us-east-1" = true) ∧
    ParseServicePath "/s3.example.com:9000/us-east-1"
      = ("s3.example.com:9000", "us-east-1", true) :=
  ⟨by decide, servicePath_accepts_host_port "s3.example.com:9000" "us-east-1" (by decide)
    (by decide)⟩

end S3Proxy
